import Mathlib

/-!
Verification development for the AIDIT document-intake assistant.

Text is modelled as `List Char` (JavaScript strings, UTF-16 code units; all
texts of interest here are within the BMP so one `Char` per code unit).
Character codes are modelled as `Nat` where the code works on char codes
(the security utilities).  Fallible JavaScript operations are `Option`-valued;
a `try`/`catch` in the source becomes a `match` on that `Option`.

The file is organised as: all definitions (shallow embedding of the source),
then all theorems.
-/

namespace Aidit

/-! ### Text primitives -/

/-- JavaScript `\s` / `String.prototype.trim` whitespace, restricted to the
ASCII range (the oracle texts handled by the app are ASCII; the full JS set
additionally has Unicode space separators, which never occur in the claims'
inputs). -/
def isJsWs (c : Char) : Bool :=
  c = ' ' || c = '\t' || c = '\n' || c = '\r' || c = '\x0b' || c = '\x0c'

/-- JavaScript `String.prototype.trim`: drop whitespace from both ends. -/
def jsTrim (s : List Char) : List Char :=
  ((s.dropWhile isJsWs).reverse.dropWhile isJsWs).reverse

/-- First index of `pat` in `text`, i.e. JavaScript `text.indexOf(pat)`
(`none` stands for `-1`). -/
def findSub (pat text : List Char) : Option Nat :=
  if pat.isPrefixOf text then some 0
  else
    match text with
    | [] => none
    | _ :: cs => (findSub pat cs).map (· + 1)

/-- JavaScript `text.includes(pat)`. -/
def containsSub (pat text : List Char) : Bool :=
  (findSub pat text).isSome

/-! ### ResponseInterpreter: continuation-signal ("NEED_MORE_INFO") parsing

From `src/app/page.tsx`, `handleFollowUpResponse` (lines 634-643, and
identically `handleProcessFiles` lines 321-323):

```
const needMoreInfoIndex = responseText.indexOf("NEED_MORE_INFO");
const needMoreInfo = needMoreInfoIndex !== -1 &&
                     responseText.substring(needMoreInfoIndex).includes("YES");
const cleanedResponseText = needMoreInfoIndex !== -1
  ? responseText.substring(0, needMoreInfoIndex).trim()
  : responseText;
```
-/

def marker : List Char := "NEED_MORE_INFO".toList

def yesWord : List Char := "YES".toList

/-- `needMoreInfoIndex` (`none` = `-1`). -/
def needMoreInfoIndex (text : List Char) : Option Nat :=
  findSub marker text

/-- The "needs more information" flag. -/
def needMoreInfo (text : List Char) : Bool :=
  match needMoreInfoIndex text with
  | none => false
  | some i => containsSub yesWord (text.drop i)

/-- The response text with the marker section removed (the base of all text
shown to the user by `handleFollowUpResponse`). -/
def cleanedResponseText (text : List Char) : List Char :=
  match needMoreInfoIndex text with
  | some i => jsTrim (text.take i)
  | none => text

/-- The terminal-round decision of `handleFollowUpResponse` (line 647):
`isFinalRound || (needMoreInfoIndex !== -1 && !needMoreInfo)`. -/
def finalRoundDecision (isFinalRound : Bool) (text : List Char) : Bool :=
  isFinalRound || ((needMoreInfoIndex text).isSome && !needMoreInfo text)

/-! ### TextOracleClient request shaping (`src/utils/openaiUtils.ts`)

```
export const requiresMaxCompletionTokens = (model: string): boolean => {
  if (model.includes('o1') || model.includes('o3')) { return true; }
  if (model.includes('gpt-4o')) { return true; }
  if (model.includes('gpt-4.5')) { return true; }
  return false;
};
export const supportsTemperature = (model: string): boolean => {
  if (model.includes('o1') || model.includes('o3')) { return false; }
  return true;
};
```
and `sendOpenAIRequest` builds the request body with `temperature: 0.7` only
when `supportsTemperature`, and `max_completion_tokens` instead of
`max_tokens` exactly when `requiresMaxCompletionTokens`.
-/

def requiresMaxCompletionTokens (model : List Char) : Bool :=
  if containsSub ['o', '1'] model || containsSub ['o', '3'] model then true
  else if containsSub ['g', 'p', 't', '-', '4', 'o'] model then true
  else if containsSub ['g', 'p', 't', '-', '4', '.', '5'] model then true
  else false

def supportsTemperature (model : List Char) : Bool :=
  if containsSub ['o', '1'] model || containsSub ['o', '3'] model then false
  else true

inductive TokenLimitField where
  | maxTokens
  | maxCompletionTokens
deriving DecidableEq

structure ChatMessage where
  role : List Char
  content : List Char
deriving DecidableEq

/-- Shape of the JSON body built by `sendOpenAIRequest`.  The temperature
value itself is the fixed constant `0.7` (floating point, not tracked);
`hasTemperature` records whether the field is present at all. -/
structure RequestBody where
  model : List Char
  messages : List ChatMessage
  hasTemperature : Bool
  tokenField : TokenLimitField
  tokenLimit : Nat
deriving DecidableEq

def sendOpenAIRequestBody (systemMessage userPrompt : List Char)
    (maxTokens : Nat) (model : List Char) : RequestBody :=
  { model := model
    messages := [⟨"system".toList, systemMessage⟩, ⟨"user".toList, userPrompt⟩]
    hasTemperature := supportsTemperature model
    tokenField :=
      if requiresMaxCompletionTokens model then TokenLimitField.maxCompletionTokens
      else TokenLimitField.maxTokens
    tokenLimit := maxTokens }

/-! ### securityUtils (`src/utils/securityUtils.ts`)

`encryptApiKey` base64-encodes (browser `btoa`) and then shifts every UTF-16
code unit up by one; `decryptApiKey` shifts down and decodes (browser
`atob`), returning `''` when `atob` throws.  Char codes are `Nat`;
`String.fromCharCode` wraps modulo 2^16.  `btoa` throws on code units above
255 (`Option`-valued); `atob` implements WHATWG forgiving-base64 decode
(`Option`-valued, `none` = throw).
-/

def b64Alphabet : List Nat :=
  (List.range 26).map (65 + ·) ++ (List.range 26).map (97 + ·) ++
    (List.range 10).map (48 + ·) ++ [43, 47]

def encSextet (n : Nat) : Nat := b64Alphabet.getD n 65

def decSextet (c : Nat) : Option Nat := b64Alphabet.findIdx? (fun a => a == c)

/-- Standard base64 encoding of a byte list (the output characters as char
codes, `61` = `'='` padding). -/
def b64Encode : List Nat → List Nat
  | [] => []
  | [b1] => [encSextet (b1 / 4), encSextet (b1 % 4 * 16), 61, 61]
  | [b1, b2] =>
      [encSextet (b1 / 4), encSextet (b1 % 4 * 16 + b2 / 16),
       encSextet (b2 % 16 * 4), 61]
  | b1 :: b2 :: b3 :: rest =>
      [encSextet (b1 / 4), encSextet (b1 % 4 * 16 + b2 / 16),
       encSextet (b2 % 16 * 4 + b3 / 64), encSextet (b3 % 64)] ++ b64Encode rest

/-- `btoa`: fails (throws) on any code unit above 255. -/
def btoa (s : List Nat) : Option (List Nat) :=
  if s.all (fun b => b < 256) then some (b64Encode s) else none

/-- ASCII whitespace stripped by forgiving-base64 decode. -/
def isB64Ws (c : Nat) : Bool :=
  c = 9 || c = 10 || c = 12 || c = 13 || c = 32

def stripB64Ws (s : List Nat) : List Nat :=
  s.filter (fun c => !isB64Ws c)

/-- Remove one or two leading `'='` (`61`) from a reversed char list. -/
def stripEq (r : List Nat) : List Nat :=
  match r with
  | [] => []
  | r0 :: rest =>
      if r0 = 61 then
        match rest with
        | [] => []
        | r1 :: rest2 => if r1 = 61 then rest2 else r1 :: rest2
      else r0 :: rest

/-- Forgiving-base64 padding removal: strip up to two trailing `'='` when the
length is a multiple of 4. -/
def dropB64Padding (s : List Nat) : List Nat :=
  if s.length % 4 = 0 then (stripEq s.reverse).reverse else s

def charsToSextets : List Nat → Option (List Nat)
  | [] => some []
  | c :: cs =>
      match decSextet c, charsToSextets cs with
      | some s, some ss => some (s :: ss)
      | _, _ => none

/-- Decode a sextet stream four at a time; a trailing group of two or three
sextets yields one or two bytes, a trailing single sextet is a failure. -/
def b64DecodeQuads : List Nat → Option (List Nat)
  | [] => some []
  | [_] => none
  | [s1, s2] => some [s1 * 4 + s2 / 16]
  | [s1, s2, s3] => some [s1 * 4 + s2 / 16, s2 % 16 * 16 + s3 / 4]
  | s1 :: s2 :: s3 :: s4 :: rest =>
      (b64DecodeQuads rest).map
        (fun tl => (s1 * 4 + s2 / 16) :: (s2 % 16 * 16 + s3 / 4) ::
          (s3 % 4 * 64 + s4) :: tl)

def atobCore (u : List Nat) : Option (List Nat) :=
  match charsToSextets (dropB64Padding u) with
  | none => none
  | some ss => b64DecodeQuads ss

/-- `atob` (WHATWG forgiving-base64 decode; `none` = throw). -/
def atob (input : List Nat) : Option (List Nat) :=
  atobCore (stripB64Ws input)

/-- `String.fromCharCode(code + 1)` with UTF-16 wrap-around. -/
def shiftUp (c : Nat) : Nat := (c + 1) % 65536

/-- `String.fromCharCode(code - 1)` with UTF-16 wrap-around. -/
def shiftDown (c : Nat) : Nat := (c + 65535) % 65536

/-- `encryptApiKey` (over char codes): `''` stays `''`; otherwise
`btoa` then per-character `+1` substitution.  `none` models the `btoa`
throw on non-Latin-1 input (uncaught in the source). -/
def encryptApiKey (text : List Nat) : Option (List Nat) :=
  if text.isEmpty then some []
  else (btoa text).map (List.map shiftUp)

/-- `decryptApiKey` (over char codes): `''` stays `''`; otherwise reverse the
substitution and `atob`, with the `try`/`catch` returning `''` when `atob`
throws. -/
def decryptApiKey (encrypted : List Nat) : List Nat :=
  if encrypted.isEmpty then []
  else
    match atob (encrypted.map shiftDown) with
    | some s => s
    | none => []

/-! ### Shared regex-scanner models

Each JavaScript regex used by the source is modelled by a dedicated scanning
function with the same leftmost, non-overlapping, greedy-with-backtracking
semantics for that particular pattern.
-/

/-- Case-insensitive prefix test (both sides uppercased, ASCII). -/
def matchesCI : List Char → List Char → Bool
  | [], _ => true
  | _ :: _, [] => false
  | p :: ps, c :: cs => (p.toUpper = c.toUpper) && matchesCI ps cs

/-- `String.prototype.search`-style first index whose suffix satisfies
`test` (`none` = `-1`). -/
def searchSuffix (test : List Char → Bool) : List Char → Option Nat
  | [] => if test [] then some 0 else none
  | c :: cs => if test (c :: cs) then some 0 else (searchSuffix test cs).map (· + 1)

/-- `responseText.search(/FOLLOW-UP QUESTIONS|FOLLOW UP QUESTIONS|FOLLOW-UP
QUESTIONS FOR/i)` (the third alternative shares the first's prefix and cannot
win earlier, so the match index is unchanged by it). -/
def followUpHeaderIdxPage (t : List Char) : Option Nat :=
  searchSuffix
    (fun u => matchesCI "FOLLOW-UP QUESTIONS".toList u
      || matchesCI "FOLLOW UP QUESTIONS".toList u) t

/-- The backtracking tail of `\s+([^\n]+)` when the whole remaining input is
whitespace: the capture becomes the last non-newline (whitespace) character,
provided at least one whitespace character remains consumed before it. -/
def wsCaptureBacktrack (u : List Char) : Option (List Char × List Char × List Char) :=
  let k := (u.reverse.takeWhile (fun c => c = '\n')).length
  if k + 1 < u.length then
    let j := u.length - k - 1
    some (u.take j, (u.drop j).take 1, u.drop (j + 1))
  else none

/-- `\s+([^\n]+)` (greedy, with backtracking): returns the whitespace run,
the capture, and the rest after the match. -/
def wsPlusCapture (u : List Char) : Option (List Char × List Char × List Char) :=
  let w := u.takeWhile isJsWs
  let v := u.drop w.length
  match v with
  | _ :: _ =>
      if w.isEmpty then none
      else
        let cap := v.takeWhile (fun c => c ≠ '\n')
        some (w, cap, v.drop cap.length)
  | [] => wsCaptureBacktrack u

/-- `\s*([^\n]+)` (greedy, with backtracking). -/
def wsStarCapture (u : List Char) : Option (List Char × List Char × List Char) :=
  let w := u.takeWhile isJsWs
  let v := u.drop w.length
  match v with
  | _ :: _ =>
      let cap := v.takeWhile (fun c => c ≠ '\n')
      some (w, cap, v.drop cap.length)
  | [] =>
      let k := (u.reverse.takeWhile (fun c => c = '\n')).length
      if k < u.length then
        let j := u.length - k - 1
        some (u.take j, (u.drop j).take 1, u.drop (j + 1))
      else none

/-- The `(?:\d+\.|\([A-Za-z]\))` prefix alternative of the page's question
regex: returns the matched prefix text and the rest. -/
def numLetPrefix (u : List Char) : Option (List Char × List Char) :=
  let d := u.takeWhile Char.isDigit
  if d.isEmpty then
    match u with
    | '(' :: c :: ')' :: rest =>
        if c.isAlpha then some (['(', c, ')'], rest) else none
    | _ => none
  else
    match u.drop d.length with
    | '.' :: rest => some (d ++ ['.'], rest)
    | _ => none

/-- Scanner for `/(?:\d+\.|\([A-Za-z]\))\s+([^\n]+)/g` returning the list of
full matches (`match[0]`), as used by both question-extraction fallbacks in
`src/app/page.tsx`. -/
def numLetScan (fuel : Nat) (u : List Char) : List (List Char) :=
  match fuel, u with
  | 0, _ => []
  | _, [] => []
  | fuel + 1, c :: cs =>
      match numLetPrefix (c :: cs) with
      | some (pre, rest) =>
          match wsPlusCapture rest with
          | some (w, cap, rest2) => (pre ++ w ++ cap) :: numLetScan fuel rest2
          | none => numLetScan fuel cs
      | none => numLetScan fuel cs

def numberedMatches (t : List Char) : List (List Char) :=
  numLetScan (t.length + 1) t

/-- Scanner for `/([^\.\?]+\?)/g` returning full matches. -/
def qmScan (fuel : Nat) (u : List Char) : List (List Char) :=
  match fuel with
  | 0 => []
  | fuel + 1 =>
      match u with
      | [] => []
      | _ :: _ =>
          let run := u.takeWhile (fun c => c ≠ '.' ∧ c ≠ '?')
          match u.drop run.length with
          | '?' :: rest =>
              if run.isEmpty then qmScan fuel rest
              else (run ++ ['?']) :: qmScan fuel rest
          | _ :: rest => qmScan fuel rest
          | [] => []

def qmMatches (t : List Char) : List (List Char) :=
  qmScan (t.length + 1) t

/-- `cls+` followed by a captured `capOk+` (both greedy, with the JS
backtracking order); returns the capture and the rest. -/
def classPlusCaptureGo (capOk : Char → Bool) (u : List Char) : Nat → Option Nat
  | 0 => none
  | j + 1 =>
      match (u.drop (j + 1)).head? with
      | some c => if capOk c then some (j + 1) else classPlusCaptureGo capOk u j
      | none => classPlusCaptureGo capOk u j

def classPlusCapture (cls capOk : Char → Bool) (u : List Char) :
    Option (List Char × List Char) :=
  let w := u.takeWhile cls
  if w.isEmpty then none
  else
    let v := u.drop w.length
    match v.head? with
    | some c =>
        if capOk c then
          let cap := v.takeWhile capOk
          some (cap, v.drop cap.length)
        else
          match classPlusCaptureGo capOk u (w.length - 1) with
          | some j => some ((u.drop j).takeWhile capOk,
              (u.drop j).drop ((u.drop j).takeWhile capOk).length)
          | none => none
    | none =>
        match classPlusCaptureGo capOk u (w.length - 1) with
        | some j => some ((u.drop j).takeWhile capOk,
            (u.drop j).drop ((u.drop j).takeWhile capOk).length)
        | none => none

def litAfter (lit : List Char) (u : List Char) : Option (List Char) :=
  if lit.isPrefixOf u then some (u.drop lit.length) else none

/-! ### ResponseInterpreter: final-result heuristic extraction

From `src/app/page.tsx` lines 449-545 (`handleProcessFiles`, applied to the
raw response) and 649-744 (`handleFollowUpResponse`, applied to the
marker-stripped response) — the two blocks are verbatim duplicates.
-/

structure MetadataEntry where
  fieldName : List Char
  type : List Char
  description : List Char
  explanation : List Char
deriving DecidableEq

/-- JS `text.split('|')` (chunks between `'|'` occurrences). -/
def splitPipe : List Char → List (List Char)
  | [] => [[]]
  | c :: cs =>
      if c = '|' then [] :: splitPipe cs
      else
        match splitPipe cs with
        | [] => [[c]]
        | s :: ss => (c :: s) :: ss

/-- Matching process of the global regex
`/\|\s*([^|]+)\s*\|\s*([^|]+)\s*\|\s*([^|]+)\s*\|\s*([^|]+)\s*\|/g` over the
list of inter-pipe segments: a match needs five consecutive pipes with a
nonempty segment between each pair; on a match the closing pipe is consumed,
so the following segment cannot start a new match.  The cell values are the
raw segments: the `\s*([^|]+)\s*` capture of a segment trims (under the
`.trim()` the source always applies next) to the same string as the segment
itself. -/
def pipeRunsGo (fuel : Nat) :
    List (List Char) → List (List Char × List Char × List Char × List Char)
  | s1 :: s2 :: s3 :: s4 :: rest =>
      match fuel with
      | 0 => []
      | fuel + 1 =>
          if ¬s1.isEmpty ∧ ¬s2.isEmpty ∧ ¬s3.isEmpty ∧ ¬s4.isEmpty then
            (s1, s2, s3, s4) :: pipeRunsGo fuel (rest.drop 1)
          else
            pipeRunsGo fuel (s2 :: s3 :: s4 :: rest)
  | _ => []

def pipeRuns (l : List (List Char)) :
    List (List Char × List Char × List Char × List Char) :=
  pipeRunsGo (l.length + 1) l

/-- All matches of the 4-column table-row regex on a text. -/
def tableRowMatches (text : List Char) :
    List (List Char × List Char × List Char × List Char) :=
  pipeRuns (((splitPipe text).drop 1).dropLast)

/-- `text.includes('|') && text.includes('---') && text.includes('\n|')`. -/
def containsTable (text : List Char) : Bool :=
  containsSub ['|'] text && containsSub ['-', '-', '-'] text &&
    containsSub ['\n', '|'] text

/-- The metadata extracted from a markdown table: skip the first two matched
rows (header and separator) provided more than two rows matched. -/
def tableMetadata (text : List Char) : List MetadataEntry :=
  if containsTable text then
    let ms := tableRowMatches text
    if 2 < ms.length then
      (ms.drop 2).map (fun m =>
        { fieldName := jsTrim m.1
          type := jsTrim m.2.1
          description := jsTrim m.2.2.1
          explanation := jsTrim m.2.2.2 })
    else []
  else []

/-- The tail of the bullet-metadata regex
`/[•\-*]\s*\*\*([^:*]+)\*\*:?\s*([^\n]+)/g` after the bullet character:
returns the two captures and the rest after the match. -/
def bulletTail (u : List Char) : Option ((List Char × List Char) × List Char) :=
  match u.dropWhile isJsWs with
  | '*' :: '*' :: t2 =>
      let cap1 := t2.takeWhile (fun c => c ≠ ':' ∧ c ≠ '*')
      if cap1.isEmpty then none
      else
        match t2.drop cap1.length with
        | '*' :: '*' :: t4 =>
            match t4 with
            | ':' :: t5 =>
                match wsStarCapture t5 with
                | some (_, cap2, rest) => some ((cap1, cap2), rest)
                | none =>
                    let cap2 := t4.takeWhile (fun c => c ≠ '\n')
                    some ((cap1, cap2), t4.drop cap2.length)
            | _ =>
                match wsStarCapture t4 with
                | some (_, cap2, rest) => some ((cap1, cap2), rest)
                | none => none
        | _ => none
  | _ => none

def isBulletChar (c : Char) : Bool := c = '•' || c = '-' || c = '*'

def bulletScan (fuel : Nat) (u : List Char) : List (List Char × List Char) :=
  match fuel, u with
  | 0, _ => []
  | _, [] => []
  | fuel + 1, c :: cs =>
      if isBulletChar c then
        match bulletTail cs with
        | some (m, rest) => m :: bulletScan fuel rest
        | none => bulletScan fuel cs
      else bulletScan fuel cs

/-- Bullet-point metadata fallback
(`/[•\-*]\s*\*\*([^:*]+)\*\*:?\s*([^\n]+)/g`). -/
def bulletMetadata (t : List Char) : List MetadataEntry :=
  (bulletScan (t.length + 1) t).map (fun m =>
    { fieldName := jsTrim m.1
      type := "string".toList
      description := jsTrim m.2
      explanation := "Extracted from AI recommendations".toList })

/-- First match of `/[Cc]hunking\s+([Ss]trategy|[Aa]pproach)[:\s]+([^\n\.]+)/`,
returning capture 2. -/
def chunkingFirst (fuel : Nat) (u : List Char) : Option (List Char) :=
  match fuel, u with
  | 0, _ => none
  | _, [] => none
  | fuel + 1, c :: cs =>
      (if c = 'C' ∨ c = 'c' then
        match litAfter "hunking".toList cs with
        | some u2 =>
            let w := u2.takeWhile isJsWs
            if w.isEmpty then none
            else
              let u3 := u2.drop w.length
              match u3 with
              | d :: ds =>
                  (if d = 'S' ∨ d = 's' then litAfter "trategy".toList ds
                   else if d = 'A' ∨ d = 'a' then litAfter "pproach".toList ds
                   else none).bind (fun u4 =>
                    (classPlusCapture (fun x => x = ':' || isJsWs x)
                      (fun x => x ≠ '\n' ∧ x ≠ '.') u4).map (·.1))
              | [] => none
        | none => none
      else none).orElse (fun _ => chunkingFirst fuel cs)

/-- First match of
`/([Vv]ectorization\s+[Ss]trategy|[Rr]ecommended\s+[Mm]odel)[:\s]+([^\n\.]+)/`,
returning capture 2. -/
def modelFirst (fuel : Nat) (u : List Char) : Option (List Char) :=
  match fuel, u with
  | 0, _ => none
  | _, [] => none
  | fuel + 1, c :: cs =>
      (let alt1 :=
        if c = 'V' ∨ c = 'v' then
          (litAfter "ectorization".toList cs).bind (fun u2 =>
            let w := u2.takeWhile isJsWs
            if w.isEmpty then none
            else
              match u2.drop w.length with
              | d :: ds =>
                  if d = 'S' ∨ d = 's' then litAfter "trategy".toList ds else none
              | [] => none)
        else none
      let alt2 :=
        if c = 'R' ∨ c = 'r' then
          (litAfter "ecommended".toList cs).bind (fun u2 =>
            let w := u2.takeWhile isJsWs
            if w.isEmpty then none
            else
              match u2.drop w.length with
              | d :: ds =>
                  if d = 'M' ∨ d = 'm' then litAfter "odel".toList ds else none
              | [] => none)
        else none
      (alt1.orElse (fun _ => alt2)).bind (fun u4 =>
        (classPlusCapture (fun x => x = ':' || isJsWs x)
          (fun x => x ≠ '\n' ∧ x ≠ '.') u4).map (·.1))).orElse
        (fun _ => modelFirst fuel cs)

/-- `[^:]*:(…)` tail: skip to the first colon, then capture `capOk+`. -/
def colonCaptureTail (capOk : Char → Bool) (u : List Char) : Option (List Char) :=
  let pre := u.takeWhile (fun c => c ≠ ':')
  match u.drop pre.length with
  | ':' :: rest =>
      let cap := rest.takeWhile capOk
      if cap.isEmpty then none else some cap
  | _ => none

/-- First match of `/[Cc]hunking\s+and\s+[Ss]egmenting[^:]*:([^\.]+)/`,
returning capture 1. -/
def chunkingSectionFirst (fuel : Nat) (u : List Char) : Option (List Char) :=
  match fuel, u with
  | 0, _ => none
  | _, [] => none
  | fuel + 1, c :: cs =>
      (if c = 'C' ∨ c = 'c' then
        (litAfter "hunking".toList cs).bind (fun u2 =>
          let w := u2.takeWhile isJsWs
          if w.isEmpty then none
          else (litAfter "and".toList (u2.drop w.length)).bind (fun u3 =>
            let w2 := u3.takeWhile isJsWs
            if w2.isEmpty then none
            else
              match u3.drop w2.length with
              | d :: ds =>
                  if d = 'S' ∨ d = 's' then
                    (litAfter "egmenting".toList ds).bind
                      (colonCaptureTail (fun x => x ≠ '.'))
                  else none
              | [] => none))
      else none).orElse (fun _ => chunkingSectionFirst fuel cs)

/-- First match of `/[Vv]ectorization[^:]*:([^\.]+)/`, returning capture 1. -/
def modelSectionFirst (fuel : Nat) (u : List Char) : Option (List Char) :=
  match fuel, u with
  | 0, _ => none
  | _, [] => none
  | fuel + 1, c :: cs =>
      (if c = 'V' ∨ c = 'v' then
        (litAfter "ectorization".toList cs).bind
          (colonCaptureTail (fun x => x ≠ '.'))
      else none).orElse (fun _ => modelSectionFirst fuel cs)

structure Vectorization where
  model : List Char
  chunking : List Char
  modelExplanation : List Char
  chunkingExplanation : List Char
deriving DecidableEq

/-- Vectorization-strategy extraction (`src/app/page.tsx` lines 516-534 /
714-732). -/
def extractVectorization (text : List Char) : Option Vectorization :=
  let chunkingMatch := chunkingFirst (text.length + 1) text
  let modelMatch := modelFirst (text.length + 1) text
  let chunkingSectionMatch :=
    if chunkingMatch.isNone then chunkingSectionFirst (text.length + 1) text
    else none
  let modelSectionMatch :=
    if modelMatch.isNone then modelSectionFirst (text.length + 1) text
    else none
  if modelMatch.isSome || chunkingMatch.isSome || modelSectionMatch.isSome ||
      chunkingSectionMatch.isSome then
    some
      { model :=
          match modelMatch with
          | some m => jsTrim m
          | none =>
              match modelSectionMatch with
              | some m => jsTrim m
              | none => "Extract embeddings using a domain-specific model".toList
        chunking :=
          match chunkingMatch with
          | some m => jsTrim m
          | none =>
              match chunkingSectionMatch with
              | some m => jsTrim m
              | none => "Segment by logical document sections".toList
        modelExplanation := "Extracted from AI recommendations".toList
        chunkingExplanation := "Extracted from AI recommendations".toList }
  else none

/-! ### `JSON.parse` validity (both handlers first try a strict JSON parse
and fall back to the heuristics on failure).  A recursive-descent recogniser
for the JSON grammar; only validity matters to the control flow (the parsed
object is spread into the results verbatim). -/

def isJsonWs (c : Char) : Bool :=
  c = ' ' || c = '\t' || c = '\n' || c = '\r'

def skipJsonWs (u : List Char) : List Char := u.dropWhile isJsonWs

def isHexDigit (c : Char) : Bool :=
  c.isDigit || ('a' ≤ c ∧ c ≤ 'f') || ('A' ≤ c ∧ c ≤ 'F')

/-- Consume the remainder of a JSON string (after the opening quote). -/
def jsonStringRest (fuel : Nat) (u : List Char) : Option (List Char) :=
  match fuel, u with
  | 0, _ => none
  | _, [] => none
  | fuel + 1, c :: cs =>
      if c = '"' then some cs
      else if c = '\\' then
        match cs with
        | 'u' :: h1 :: h2 :: h3 :: h4 :: rest =>
            if isHexDigit h1 && isHexDigit h2 && isHexDigit h3 && isHexDigit h4 then
              jsonStringRest fuel rest
            else none
        | e :: rest =>
            if e = '"' ∨ e = '\\' ∨ e = '/' ∨ e = 'b' ∨ e = 'f' ∨ e = 'n' ∨
                e = 'r' ∨ e = 't' then
              jsonStringRest fuel rest
            else none
        | [] => none
      else if c.val < 32 then none
      else jsonStringRest fuel cs

/-- Consume a JSON number. -/
def jsonNumberRest (u : List Char) : Option (List Char) :=
  let u := match u with | '-' :: rest => rest | _ => u
  let intPart := u.takeWhile Char.isDigit
  if intPart.isEmpty then none
  else if 1 < intPart.length ∧ intPart.head? = some '0' then none
  else
    let u := u.drop intPart.length
    let u :=
      match u with
      | '.' :: rest =>
          let frac := rest.takeWhile Char.isDigit
          if frac.isEmpty then none else some (rest.drop frac.length)
      | _ => some u
    match u with
    | none => none
    | some u =>
        match u with
        | e :: rest =>
            if e = 'e' ∨ e = 'E' then
              let rest := match rest with
                | s :: r2 => if s = '+' ∨ s = '-' then r2 else rest
                | [] => rest
              let ex := rest.takeWhile Char.isDigit
              if ex.isEmpty then none else some (rest.drop ex.length)
            else some (e :: rest)
        | [] => some []

mutual

/-- Consume one JSON value (with leading whitespace). -/
def jsonValueRest (fuel : Nat) (u : List Char) : Option (List Char) :=
  match fuel with
  | 0 => none
  | fuel + 1 =>
      match skipJsonWs u with
      | [] => none
      | c :: cs =>
          if c = '{' then
            match skipJsonWs cs with
            | '}' :: rest => some rest
            | _ => jsonMembersRest fuel cs
          else if c = '[' then
            match skipJsonWs cs with
            | ']' :: rest => some rest
            | _ => jsonElementsRest fuel cs
          else if c = '"' then jsonStringRest fuel cs
          else if c = 't' then litAfter "rue".toList cs
          else if c = 'f' then litAfter "alse".toList cs
          else if c = 'n' then litAfter "ull".toList cs
          else jsonNumberRest (c :: cs)

/-- Consume `string : value (, string : value)* }`. -/
def jsonMembersRest (fuel : Nat) (u : List Char) : Option (List Char) :=
  match fuel with
  | 0 => none
  | fuel + 1 =>
      match skipJsonWs u with
      | '"' :: cs =>
          match jsonStringRest fuel cs with
          | none => none
          | some afterKey =>
              match skipJsonWs afterKey with
              | ':' :: afterColon =>
                  match jsonValueRest fuel afterColon with
                  | none => none
                  | some afterVal =>
                      match skipJsonWs afterVal with
                      | ',' :: rest => jsonMembersRest fuel rest
                      | '}' :: rest => some rest
                      | _ => none
              | _ => none
      | _ => none

/-- Consume `value (, value)* ]`. -/
def jsonElementsRest (fuel : Nat) (u : List Char) : Option (List Char) :=
  match fuel with
  | 0 => none
  | fuel + 1 =>
      match jsonValueRest fuel u with
      | none => none
      | some afterVal =>
          match skipJsonWs afterVal with
          | ',' :: rest => jsonElementsRest fuel rest
          | ']' :: rest => some rest
          | _ => none

end

/-- Whether `JSON.parse(text)` succeeds. -/
def jsonParses (t : List Char) : Bool :=
  match jsonValueRest (t.length + 1) t with
  | some rest => (skipJsonWs rest).isEmpty
  | none => false

/-! ### ResponseInterpreter: follow-up question-string extraction

From `src/app/page.tsx` lines 326-447 (`handleProcessFiles`, `base` = the
raw response) and 758-882 (`handleFollowUpResponse`, `base` = the
marker-stripped response); the two blocks have the same structure, with
`markerPresent` the `needMoreInfoIndex !== -1` flag of the original
response. -/

def catchAllPrompt : List Char :=
  ("Based on the AI's analysis, please provide any additional information " ++
    "that might help with metadata construction.").toList

def joinTwoNl (xs : List (List Char)) : List Char :=
  List.intercalate ['\n', '\n'] xs

/-- The string stored into `followUpQuestions` when the controller decides
to continue asking. -/
def extractQuestionString (markerPresent : Bool) (base : List Char) : List Char :=
  match followUpHeaderIdxPage base with
  | some i =>
      let followUpSection := base.drop i
      let cleanedFollowUpSection :=
        match markerPresent, findSub marker followUpSection with
        | true, some j => jsTrim (followUpSection.take j)
        | _, _ => jsTrim followUpSection
      if cleanedFollowUpSection.isEmpty then
        match numberedMatches base with
        | [] => base
        | q :: qs => joinTwoNl (q :: qs)
      else cleanedFollowUpSection
  | none =>
      match numberedMatches base with
      | q :: qs => joinTwoNl (q :: qs)
      | [] =>
          match qmMatches base with
          | q :: qs => joinTwoNl ((q :: qs).map jsTrim)
          | [] => catchAllPrompt

/-! ### NegotiationController: the two handlers as state-transition functions

State fields correspond to the React state hooks of `src/app/page.tsx`.
`setX` calls become functional updates; a value read inside a handler is the
closure value from the start of that invocation (React state is not mutated
in place), which in particular applies to `currentQuestionDepth` in the
`finally` block of `handleFollowUpResponse`.  An oracle call is
`Except (List Char) (List Char)`: `.error msg` models a thrown
transport/HTTP failure, `.ok text` a successful response.  The `apiKey`,
`isConnected` and `fileInfos` guards are modelled as satisfied; the request
prompt composition is not tracked beyond the seeded conversation memory. -/

structure ConvMessage where
  role : List Char
  content : List Char
deriving DecidableEq

inductive AnalysisOutcome where
  /-- `results = { error: msg }` (catch blocks). -/
  | errorResult (msg : List Char)
  /-- `JSON.parse` succeeded on `text`; the parsed object is spread into the
  results verbatim (plus the `apiResponse` echo, not tracked). -/
  | jsonResult (text : List Char)
  /-- Heuristic extraction result: `{ insights, metadata?, vectorization? }`. -/
  | heuristicResult (insights : List Char) (metadata : Option (List MetadataEntry))
      (vectorization : Option Vectorization)
deriving DecidableEq

def AnalysisOutcome.isFinal : AnalysisOutcome → Bool
  | .errorResult _ => false
  | .jsonResult _ => true
  | .heuristicResult _ _ _ => true

/-- The final-result construction both handlers apply to `text` (the raw
response in `handleProcessFiles`, the marker-stripped response in
`handleFollowUpResponse`): strict JSON parse first, heuristics on failure. -/
def buildFinalResults (text : List Char) : AnalysisOutcome :=
  if jsonParses text then .jsonResult text
  else
    let metadata := tableMetadata text
    let metadata := if metadata.isEmpty then bulletMetadata text else metadata
    .heuristicResult text (if metadata.isEmpty then none else some metadata)
      (extractVectorization text)

structure AppState where
  maxQuestionDepth : Nat
  currentQuestionDepth : Nat
  followUpQuestions : Option (List Char)
  conversationMemory : List ConvMessage
  results : Option AnalysisOutcome
  isProcessed : Bool
deriving DecidableEq

def systemSeedMessage : List Char :=
  ("You are an AI assistant that analyzes documents and provides insights, " ++
    "metadata suggestions, and vectorization recommendations.").toList

/-! ### A well-formed 4-column markdown table, as input for the
metadata-table extraction: one header row, one separator row, two data rows,
each cell padded with single spaces, rows separated by newlines. -/

def cellSeg (c : List Char) : List Char := ' ' :: (c ++ [' '])

def rowThen (c1 c2 c3 c4 t : List Char) : List Char :=
  '|' :: (cellSeg c1 ++ '|' :: (cellSeg c2 ++ '|' ::
    (cellSeg c3 ++ '|' :: (cellSeg c4 ++ '|' :: t))))

def sepCell : List Char := "---".toList

def sepRowThen (t : List Char) : List Char :=
  '|' :: (sepCell ++ '|' :: (sepCell ++ '|' ::
    (sepCell ++ '|' :: (sepCell ++ '|' :: t))))

def mdTable (h1 h2 h3 h4 a1 a2 a3 a4 b1 b2 b3 b4 : List Char) : List Char :=
  rowThen h1 h2 h3 h4 ('\n' :: sepRowThen
    ('\n' :: rowThen a1 a2 a3 a4 ('\n' :: rowThen b1 b2 b3 b4 [])))

/-! ### FollowUpQuestions component parsing (`src/unnamed/part_003`, second
variant, lines 185-320): turn the `followUpQuestions` string into
ParsedQuestionSet entries `{category, questions}`. -/

def isUpperAscii (c : Char) : Bool := 'A' ≤ c && c ≤ 'Z'

/-- `questions.search(/FOLLOW-UP QUESTIONS/i)`. -/
def followUpIdx303 (t : List Char) : Option Nat :=
  searchSuffix (matchesCI "FOLLOW-UP QUESTIONS".toList) t

/-- The lookahead `(?=\d+\.|[A-Z]\)|\n\n|$)` of the category-header regex. -/
def lookaheadCat (u : List Char) : Bool :=
  let ds := u.takeWhile Char.isDigit
  if ¬ds.isEmpty then
    match u.drop ds.length with
    | '.' :: _ => true
    | _ => false
  else
    match u with
    | [] => true
    | c1 :: c2 :: _ => (isUpperAscii c1 && c2 = ')') || (c1 = '\n' && c2 = '\n')
    | [_] => false

/-- Descending search: the largest `j ≤ n` with `p j` (the backtracking
order of the greedy `\s+[^0-9]+` before a fixed lookahead). -/
def searchDown (p : Nat → Bool) : Nat → Option Nat
  | 0 => if p 0 then some 0 else none
  | n + 1 => if p (n + 1) then some (n + 1) else searchDown p n

/-- Length of a match of `/([A-Z]\)\s+[^0-9]+)(?=\d+\.|[A-Z]\)|\n\n|$)/`
starting at the head of `u` (`none` when no match starts here).  The match
needs an upper-case letter, `')'`, at least one whitespace character, then
at least one more non-digit character; its end is the largest admissible
position at or before the end of the maximal non-digit run whose suffix
satisfies the lookahead. -/
def catMatchLen (u : List Char) : Option Nat :=
  match u with
  | c0 :: c1 :: rest =>
      if isUpperAscii c0 && c1 = ')' &&
          (match rest with | r :: _ => isJsWs r | [] => false) then
        let nd := rest.takeWhile (fun c => ¬c.isDigit)
        searchDown (fun j => decide (4 ≤ j) && lookaheadCat (u.drop j))
          (2 + nd.length)
      else none
  | _ => none

def categoryScan (fuel : Nat) (sec : List Char) (i : Nat) : List (Nat × Nat) :=
  match fuel with
  | 0 => []
  | fuel + 1 =>
      if i < sec.length then
        match catMatchLen (sec.drop i) with
        | some len => (i, len) :: categoryScan fuel sec (i + len)
        | none => categoryScan fuel sec (i + 1)
      else []

/-- All category-header matches `(index, length)` of the global regex, in
order, non-overlapping. -/
def categoryMatches (sec : List Char) : List (Nat × Nat) :=
  categoryScan (sec.length + 1) sec 0

/-- Scanner for `/(\d+)\.\s+([^\n]+)/g`, returning the capture pairs
(number string, question text). -/
def numCapScan (fuel : Nat) (u : List Char) : List (List Char × List Char) :=
  match fuel, u with
  | 0, _ => []
  | _, [] => []
  | fuel + 1, c :: cs =>
      let d := (c :: cs).takeWhile Char.isDigit
      if d.isEmpty then numCapScan fuel cs
      else
        match (c :: cs).drop d.length with
        | '.' :: rest =>
            match wsPlusCapture rest with
            | some (_, cap, rest2) => (d, cap) :: numCapScan fuel rest2
            | none => numCapScan fuel cs
        | _ => numCapScan fuel cs

def numCapMatches (t : List Char) : List (List Char × List Char) :=
  numCapScan (t.length + 1) t

structure QuestionEntry where
  category : List Char
  questions : List (List Char)
deriving DecidableEq

def additionalInfoQuestion : List Char :=
  ("Please provide any additional information that might help with " ++
    "metadata construction.").toList

/-- `(categoryText, categoryContent)` per category match: the match text and
`questionsSection.substring(categoryStart + match[0].length,
nextCategoryStart)`. -/
def catBlocks (sec : List Char) : List (Nat × Nat) → List (List Char × List Char)
  | [] => []
  | (i1, l1) :: rest =>
      let nextStart :=
        match rest with
        | (i2, _) :: _ => i2
        | [] => sec.length
      ((sec.drop i1).take l1,
        (sec.drop (i1 + l1)).take (nextStart - (i1 + l1))) :: catBlocks sec rest

/-- The parsing `useEffect` of the `FollowUpQuestions` component: category
blocks with one entry pushed **per numbered question**, then the numbered
fallback (`Question <n>` labels), then the synthetic catch-all entry. -/
def parseFollowUpQuestions (questions : List Char) : List QuestionEntry :=
  match followUpIdx303 questions with
  | some i =>
      let sec := questions.drop i
      let extracted := (catBlocks sec (categoryMatches sec)).flatMap
        (fun b => (numCapMatches b.2).map
          (fun m => QuestionEntry.mk (jsTrim b.1) [jsTrim m.2]))
      if ¬extracted.isEmpty then extracted
      else
        match numCapMatches sec with
        | m :: ms =>
            (m :: ms).map (fun m =>
              QuestionEntry.mk ("Question ".toList ++ m.1) [jsTrim m.2])
        | [] => [QuestionEntry.mk "Additional Information".toList
            [additionalInfoQuestion]]
  | none =>
      match numCapMatches questions with
      | m :: ms =>
          (m :: ms).map (fun m =>
            QuestionEntry.mk ("Question ".toList ++ m.1) [jsTrim m.2])
      | [] => [QuestionEntry.mk "Additional Information".toList
          [additionalInfoQuestion]]

/-- `handleProcessFiles`: one oracle call on the composed prompt; returns the
new state and the number of oracle calls made. -/
def processFilesStep (maxQuestionDepth : Nat) (prompt : List Char)
    (outcome : Except (List Char) (List Char)) : AppState × Nat :=
  let base : AppState :=
    { maxQuestionDepth := maxQuestionDepth
      currentQuestionDepth := 0
      followUpQuestions := none
      conversationMemory :=
        [ConvMessage.mk "system".toList systemSeedMessage,
         ConvMessage.mk "user".toList prompt]
      results := none
      isProcessed := false }
  match outcome with
  | .error e =>
      ({ base with results := some (.errorResult
          ("Error processing files: ".toList ++ e)) }, 1)
  | .ok r =>
      if 0 < maxQuestionDepth then
        ({ base with
            followUpQuestions :=
              some (extractQuestionString (needMoreInfoIndex r).isSome r)
            conversationMemory :=
              base.conversationMemory ++ [ConvMessage.mk "assistant".toList r]
            isProcessed := true }, 1)
      else
        ({ base with
            results := some (buildFinalResults r)
            isProcessed := true }, 1)

/-- `handleFollowUpResponse`: submit `userResponse` to the pending questions.
The `finally` block reads the stale closure value of `currentQuestionDepth`
(the pre-increment depth), because `setCurrentQuestionDepth` does not change
the local binding. -/
def followUpStep (s : AppState) (userResponse : List Char)
    (outcome : Except (List Char) (List Char)) : AppState :=
  match s.followUpQuestions with
  | none => s
  | some _ =>
      let newQuestionDepth := s.currentQuestionDepth + 1
      let s1 := { s with
        currentQuestionDepth := newQuestionDepth
        conversationMemory :=
          s.conversationMemory ++ [ConvMessage.mk "user".toList userResponse] }
      let isFinalRound := s.maxQuestionDepth ≤ newQuestionDepth
      let s2 :=
        match outcome with
        | .error e =>
            { s1 with results := some (.errorResult
                ("Error processing follow-up response: ".toList ++ e)) }
        | .ok r =>
            if finalRoundDecision isFinalRound r then
              { s1 with
                  results := some (buildFinalResults (cleanedResponseText r))
                  conversationMemory :=
                    s1.conversationMemory ++ [ConvMessage.mk "assistant".toList r] }
            else
              { s1 with
                  followUpQuestions := some (extractQuestionString
                    (needMoreInfoIndex r).isSome (cleanedResponseText r))
                  conversationMemory :=
                    s1.conversationMemory ++ [ConvMessage.mk "assistant".toList r] }
      if s.maxQuestionDepth ≤ s.currentQuestionDepth then
        { s2 with followUpQuestions := none }
      else s2

def noUpperParen : List Char → Bool
  | c :: d :: rest => !(isUpperAscii c && d = ')') && noUpperParen (d :: rest)
  | _ => true

def restB (q2 : List Char) : List Char :=
  "B) FILTERING\n2. ".toList ++ (q2 ++ ['\n'])

def restA (q1 q2 : List Char) : List Char :=
  "A) CORE USE CASE\n1. ".toList ++ (q1 ++ ('\n' :: restB q2))

/-- A follow-up questions section with the two category headers and one
numbered question under each. -/
def qSet2Text (q1 q2 : List Char) : List Char :=
  "FOLLOW-UP QUESTIONS\n".toList ++ restA q1 q2

end Aidit

namespace Aidit

/-! ### Basic facts about `findSub` and infixes -/

theorem findSub_eq_some_pfx {pat text : List Char} {i : Nat}
    (h : findSub pat text = some i) : pat <+: text.drop i := by
  induction text generalizing i with
  | nil =>
    rw [findSub] at h
    split at h
    · rename_i hp
      simp only [Option.some.injEq] at h
      subst h
      simpa using List.isPrefixOf_iff_prefix.mp hp
    · simp at h
  | cons c cs ih =>
    rw [findSub] at h
    split at h
    · rename_i hp
      simp only [Option.some.injEq] at h
      subst h
      simpa using List.isPrefixOf_iff_prefix.mp hp
    · simp only [Option.map_eq_some'] at h
      obtain ⟨j, hj, rfl⟩ := h
      simpa using ih hj

theorem findSub_le_of_prefix_drop {pat text : List Char} {p : Nat}
    (h : pat <+: text.drop p) : ∃ i, findSub pat text = some i ∧ i ≤ p := by
  induction text generalizing p with
  | nil =>
    refine ⟨0, ?_, Nat.zero_le p⟩
    simp only [List.drop_nil] at h
    rw [findSub, if_pos (List.isPrefixOf_iff_prefix.mpr h)]
  | cons c cs ih =>
    by_cases hp : pat.isPrefixOf (c :: cs)
    · exact ⟨0, by rw [findSub, if_pos hp], Nat.zero_le p⟩
    · match p with
      | 0 =>
        exact absurd (List.isPrefixOf_iff_prefix.mpr (by simpa using h)) hp
      | p + 1 =>
        obtain ⟨i, hi, hle⟩ := ih (by simpa using h)
        refine ⟨i + 1, ?_, Nat.succ_le_succ hle⟩
        rw [findSub, if_neg hp, hi, Option.map_some']

theorem containsSub_iff {pat text : List Char} :
    containsSub pat text = true ↔ pat <:+: text := by
  constructor
  · intro h
    rw [containsSub, Option.isSome_iff_exists] at h
    obtain ⟨i, hi⟩ := h
    exact (findSub_eq_some_pfx hi).isInfix.trans (text.drop_suffix i).isInfix
  · rintro ⟨s, t, rfl⟩
    have : pat <+: (s ++ pat ++ t).drop s.length := by
      simp [List.drop_append_eq_append_drop]
    obtain ⟨i, hi, -⟩ := findSub_le_of_prefix_drop this
    rw [containsSub, hi]
    rfl

/-- If `y :: s` occurs inside `a ++ b` and `y` does not occur in `a`, the
occurrence lies entirely inside `b`. -/
theorem infix_append_right_of_head_not_mem {y : Char} {s a b : List Char}
    (h : (y :: s) <:+: (a ++ b)) (hy : y ∉ a) : (y :: s) <:+: b := by
  obtain ⟨u, v, huv⟩ := h
  have huv' : u ++ (y :: s ++ v) = a ++ b := by
    simpa [List.append_assoc] using huv
  rcases List.append_eq_append_iff.mp huv' with ⟨k, ha, hk⟩ | ⟨k, -, hb⟩
  · match k, ha, hk with
    | [], ha, hk => exact ⟨[], v, by simpa using hk⟩
    | c :: k', ha, hk =>
      have hyc : y = c := by
        have := congrArg (fun l => l.head?) hk
        simpa using this
      refine absurd ?_ hy
      rw [ha, hyc]
      exact List.mem_append_right u (List.mem_cons_self c k')
  · exact ⟨k, v, by simp [hb, List.append_assoc]⟩

theorem jsTrim_infix_self (s : List Char) : jsTrim s <:+: s := by
  have h1 : (s.dropWhile isJsWs).reverse.dropWhile isJsWs <:+ (s.dropWhile isJsWs).reverse :=
    List.dropWhile_suffix _
  have h2 : jsTrim s <+: s.dropWhile isJsWs := by
    have h3 := List.reverse_prefix.mpr h1
    rw [List.reverse_reverse] at h3
    exact h3
  exact h2.isInfix.trans (List.dropWhile_suffix _).isInfix

theorem not_prefix_drop_lt_findSub {pat text : List Char} {i j : Nat}
    (h : findSub pat text = some i) (hj : j < i) : ¬ pat <+: text.drop j := by
  intro hp
  obtain ⟨i', hi', hle⟩ := findSub_le_of_prefix_drop hp
  rw [h] at hi'
  injection hi' with hii
  omega

theorem marker_not_infix_take_findSub {pat text : List Char} {i : Nat}
    (h : findSub pat text = some i) (hne : pat ≠ []) :
    ¬ pat <:+: text.take i := by
  rintro ⟨u, v, huv⟩
  have hp : pat <+: (text.take i).drop u.length :=
    ⟨v, by rw [← huv, List.append_assoc, List.drop_left]⟩
  have hp' : pat <+: text.drop u.length := by
    rw [List.drop_take] at hp
    exact hp.trans (List.take_prefix _ _)
  have hlen := hp.length_le
  simp only [List.length_drop, List.length_take] at hlen
  have hpos : 0 < pat.length := List.length_pos.mpr hne
  exact not_prefix_drop_lt_findSub h (by omega) hp'

/-- The marker never survives in `cleanedResponseText` when it was present. -/
theorem marker_not_infix_cleanedResponseText {text : List Char} {i : Nat}
    (h : needMoreInfoIndex text = some i) :
    ¬ marker <:+: cleanedResponseText text := by
  intro hmem
  rw [cleanedResponseText, h] at hmem
  exact marker_not_infix_take_findSub h (by decide)
    (hmem.trans (jsTrim_infix_self (text.take i)))

/-- **C3.** For every oracle response text, the "needs more information" flag
computed by `handleFollowUpResponse`/`handleProcessFiles` is `true` iff the
text contains the literal marker `NEED_MORE_INFO` with `"YES"` appearing
after the marker (first conjunct, stated as a decomposition
`text = pre ++ marker ++ mid ++ "YES" ++ suf`); consequently with `"NO"` and
no `"YES"` after the marker the flag is `false`; and when the marker is
absent the continue/terminate decision equals the depth policy
(`isFinalRound`) alone (second conjunct). -/
theorem needMoreInfo_iff_marker_then_yes (text : List Char) (isFinalRound : Bool) :
    (needMoreInfo text = true ↔
      ∃ pre mid suf, text = pre ++ marker ++ mid ++ yesWord ++ suf) ∧
    (needMoreInfoIndex text = none →
      finalRoundDecision isFinalRound text = isFinalRound) := by
  constructor
  · constructor
    · intro h
      rw [needMoreInfo] at h
      rcases hidx : needMoreInfoIndex text with - | i
      · rw [hidx] at h; simp at h
      · rw [hidx] at h
        obtain ⟨rest, hrest⟩ := @findSub_eq_some_pfx marker _ _ hidx
        have hyes : yesWord <:+: marker ++ rest := by
          rw [hrest]
          exact containsSub_iff.mp h
        have hyes' : yesWord <:+: rest := by
          have hY : 'Y' ∉ marker := by decide
          exact infix_append_right_of_head_not_mem hyes hY
        obtain ⟨mid, suf, hms⟩ := hyes'
        refine ⟨text.take i, mid, suf, ?_⟩
        conv_lhs => rw [← List.take_append_drop i text, ← hrest, ← hms]
        simp [List.append_assoc]
    · rintro ⟨pre, mid, suf, rfl⟩
      have hdrop : (pre ++ marker ++ mid ++ yesWord ++ suf).drop pre.length
          = marker ++ mid ++ yesWord ++ suf := by
        simp [List.append_assoc, List.drop_left]
      have hpre : marker <+: (pre ++ marker ++ mid ++ yesWord ++ suf).drop pre.length := by
        rw [hdrop]
        exact ⟨mid ++ yesWord ++ suf, by simp [List.append_assoc]⟩
      obtain ⟨i, hi, hle⟩ := findSub_le_of_prefix_drop hpre
      rw [needMoreInfo, needMoreInfoIndex, hi]
      rw [containsSub_iff]
      have : yesWord <:+: (pre ++ marker ++ mid ++ yesWord ++ suf).drop i := by
        have hsplit : (pre ++ marker ++ mid ++ yesWord ++ suf).drop i
            = pre.drop i ++ marker ++ mid ++ yesWord ++ suf := by
          simp only [List.append_assoc]
          rw [List.drop_append_of_le_length (by simpa using hle)]
        rw [hsplit]
        exact ⟨pre.drop i ++ marker ++ mid, suf, by simp [List.append_assoc]⟩
      exact this
  · intro h
    rw [finalRoundDecision, h]
    simp

/-- Closed witness for `needMoreInfo_iff_marker_then_yes` at a concrete
response text. -/
theorem needMoreInfo_iff_marker_then_yes_witness :
    (needMoreInfo "Summary. NEED_MORE_INFO\nYES".toList = true ↔
      ∃ pre mid suf, "Summary. NEED_MORE_INFO\nYES".toList
        = pre ++ marker ++ mid ++ yesWord ++ suf) ∧
    (needMoreInfoIndex "Summary. NEED_MORE_INFO\nYES".toList = none →
      finalRoundDecision false "Summary. NEED_MORE_INFO\nYES".toList = false) :=
  needMoreInfo_iff_marker_then_yes "Summary. NEED_MORE_INFO\nYES".toList false

/-- **C8.** Request shaping per model identifier, reading the spec's three
cases as the source's ordered case analysis: identifiers containing `"o1"`
or `"o3"` drop the temperature parameter and use `max_completion_tokens`;
identifiers free of those but containing `"gpt-4o"` or `"gpt-4.5"` keep the
temperature and use `max_completion_tokens`; all remaining identifiers keep
the temperature and use `max_tokens`. -/
theorem requestBody_model_cases (m sys usr : List Char) (tok : Nat) :
    (containsSub ['o', '1'] m = true ∨ containsSub ['o', '3'] m = true →
      (sendOpenAIRequestBody sys usr tok m).hasTemperature = false ∧
      (sendOpenAIRequestBody sys usr tok m).tokenField
        = TokenLimitField.maxCompletionTokens) ∧
    (containsSub ['o', '1'] m = false → containsSub ['o', '3'] m = false →
      containsSub ['g', 'p', 't', '-', '4', 'o'] m = true ∨ containsSub ['g', 'p', 't', '-', '4', '.', '5'] m = true →
      (sendOpenAIRequestBody sys usr tok m).hasTemperature = true ∧
      (sendOpenAIRequestBody sys usr tok m).tokenField
        = TokenLimitField.maxCompletionTokens) ∧
    (containsSub ['o', '1'] m = false → containsSub ['o', '3'] m = false →
      containsSub ['g', 'p', 't', '-', '4', 'o'] m = false → containsSub ['g', 'p', 't', '-', '4', '.', '5'] m = false →
      (sendOpenAIRequestBody sys usr tok m).hasTemperature = true ∧
      (sendOpenAIRequestBody sys usr tok m).tokenField
        = TokenLimitField.maxTokens) := by
  cases ho1 : containsSub ['o', '1'] m <;>
    cases ho3 : containsSub ['o', '3'] m <;>
      cases h4o : containsSub ['g', 'p', 't', '-', '4', 'o'] m <;>
        cases h45 : containsSub ['g', 'p', 't', '-', '4', '.', '5'] m <;>
          simp [sendOpenAIRequestBody, supportsTemperature,
            requiresMaxCompletionTokens, ho1, ho3, h4o, h45]

/-- Closed witness for `requestBody_model_cases`, exercising all three cases
at the concrete model identifiers `"o1-mini"`, `"gpt-4o"` and
`"gpt-4-turbo"`. -/
theorem requestBody_model_cases_witness :
    ((sendOpenAIRequestBody "s".toList "u".toList 1000 "o1-mini".toList).hasTemperature
        = false ∧
      (sendOpenAIRequestBody "s".toList "u".toList 1000 "o1-mini".toList).tokenField
        = TokenLimitField.maxCompletionTokens) ∧
    ((sendOpenAIRequestBody "s".toList "u".toList 1000 ['g', 'p', 't', '-', '4', 'o']).hasTemperature
        = true ∧
      (sendOpenAIRequestBody "s".toList "u".toList 1000 ['g', 'p', 't', '-', '4', 'o']).tokenField
        = TokenLimitField.maxCompletionTokens) ∧
    ((sendOpenAIRequestBody "s".toList "u".toList 1000 "gpt-4-turbo".toList).hasTemperature
        = true ∧
      (sendOpenAIRequestBody "s".toList "u".toList 1000 "gpt-4-turbo".toList).tokenField
        = TokenLimitField.maxTokens) :=
  ⟨(requestBody_model_cases "o1-mini".toList "s".toList "u".toList 1000).1
      (Or.inl (by decide)),
    (requestBody_model_cases ['g', 'p', 't', '-', '4', 'o'] "s".toList "u".toList 1000).2.1
      (by decide) (by decide) (Or.inl (by decide)),
    (requestBody_model_cases "gpt-4-turbo".toList "s".toList "u".toList 1000).2.2
      (by decide) (by decide) (by decide) (by decide)⟩

/-! ### Base64 round-trip (securityUtils) -/

theorem sextet_table {n : Nat} (h : n < 64) :
    decSextet (encSextet n) = some n ∧ encSextet n ≠ 61 ∧
      isB64Ws (encSextet n) = false ∧ encSextet n < 123 := by
  have : ∀ m : Fin 64, decSextet (encSextet m.val) = some m.val ∧
      encSextet m.val ≠ 61 ∧ isB64Ws (encSextet m.val) = false ∧
      encSextet m.val < 123 := by decide
  exact this ⟨n, h⟩

theorem b64Encode_length_mod (s : List Nat) : (b64Encode s).length % 4 = 0 := by
  induction s using b64Encode.induct with
  | case1 => simp [b64Encode]
  | case2 b1 => simp [b64Encode]
  | case3 b1 b2 => simp [b64Encode]
  | case4 b1 b2 b3 rest ih =>
    simp only [b64Encode, List.cons_append, List.nil_append, List.length_cons]
    omega

theorem b64Encode_chars {s : List Nat} (h : ∀ b ∈ s, b < 256) :
    ∀ c ∈ b64Encode s, isB64Ws c = false ∧ c < 123 := by
  induction s using b64Encode.induct with
  | case1 => intro c hc; simp [b64Encode] at hc
  | case2 b1 =>
    have h1 : b1 < 256 := h b1 (by simp)
    intro c hc
    simp only [b64Encode, List.mem_cons, List.not_mem_nil, or_false] at hc
    rcases hc with rfl | rfl | rfl | rfl
    · exact ⟨(sextet_table (by omega)).2.2.1, (sextet_table (by omega)).2.2.2⟩
    · exact ⟨(sextet_table (by omega)).2.2.1, (sextet_table (by omega)).2.2.2⟩
    · exact ⟨rfl, by omega⟩
    · exact ⟨rfl, by omega⟩
  | case3 b1 b2 =>
    have h1 : b1 < 256 := h b1 (by simp)
    have h2 : b2 < 256 := h b2 (by simp)
    intro c hc
    simp only [b64Encode, List.mem_cons, List.not_mem_nil, or_false] at hc
    rcases hc with rfl | rfl | rfl | rfl
    · exact ⟨(sextet_table (by omega)).2.2.1, (sextet_table (by omega)).2.2.2⟩
    · exact ⟨(sextet_table (by omega)).2.2.1, (sextet_table (by omega)).2.2.2⟩
    · exact ⟨(sextet_table (by omega)).2.2.1, (sextet_table (by omega)).2.2.2⟩
    · exact ⟨rfl, by omega⟩
  | case4 b1 b2 b3 rest ih =>
    have h1 : b1 < 256 := h b1 (by simp)
    have h2 : b2 < 256 := h b2 (by simp)
    have h3 : b3 < 256 := h b3 (by simp)
    have hrest : ∀ b ∈ rest, b < 256 := fun b hb => h b (by simp [hb])
    intro c hc
    simp only [b64Encode, List.cons_append, List.nil_append, List.mem_cons] at hc
    rcases hc with rfl | rfl | rfl | rfl | hc
    · exact ⟨(sextet_table (by omega)).2.2.1, (sextet_table (by omega)).2.2.2⟩
    · exact ⟨(sextet_table (by omega)).2.2.1, (sextet_table (by omega)).2.2.2⟩
    · exact ⟨(sextet_table (by omega)).2.2.1, (sextet_table (by omega)).2.2.2⟩
    · exact ⟨(sextet_table (by omega)).2.2.1, (sextet_table (by omega)).2.2.2⟩
    · exact ih hrest c hc

theorem stripB64Ws_b64Encode {s : List Nat} (h : ∀ b ∈ s, b < 256) :
    stripB64Ws (b64Encode s) = b64Encode s := by
  rw [stripB64Ws, List.filter_eq_self]
  intro c hc
  simp [(b64Encode_chars h c hc).1]

theorem stripEq_cons_ne {l0 : Nat} {r : List Nat} (h : l0 ≠ 61) :
    stripEq (l0 :: r) = l0 :: r := by
  simp [stripEq, h]

theorem stripEq_61_cons_ne {l1 : Nat} {r : List Nat} (h : l1 ≠ 61) :
    stripEq (61 :: l1 :: r) = l1 :: r := by
  simp [stripEq, h]

theorem stripEq_61_61_cons {r : List Nat} : stripEq (61 :: 61 :: r) = r := by
  simp [stripEq]

theorem dropB64Padding_chunk_append (a b c d : Nat) (E : List Nat)
    (hlen : E.length % 4 = 0) (hd : d ≠ 61) (hE : 2 ≤ E.length ∨ E = []) :
    dropB64Padding ([a, b, c, d] ++ E) = [a, b, c, d] ++ dropB64Padding E := by
  rcases hE with hE | rfl
  · match E, hE, hlen with
    | e :: f :: E', hE, hlen =>
      rw [dropB64Padding, dropB64Padding, if_pos hlen,
        if_pos (by
          simp only [List.length_append, List.length_cons, List.length_nil] at hlen ⊢
          omega)]
      rcases hrev : (e :: f :: E').reverse with - | ⟨l0, r⟩
      · exact absurd (congrArg List.length hrev) (by simp)
      rcases r with - | ⟨l1, t⟩
      · exact absurd (congrArg List.length hrev) (by simp)
      have hrev' : ([a, b, c, d] ++ e :: f :: E').reverse
          = l0 :: l1 :: (t ++ [d, c, b, a]) := by
        rw [List.reverse_append, hrev]
        simp
      rw [hrev']
      by_cases h0 : l0 = 61
      · subst h0
        by_cases h1 : l1 = 61
        · subst h1
          rw [stripEq_61_61_cons, stripEq_61_61_cons]
          simp
        · rw [stripEq_61_cons_ne h1, stripEq_61_cons_ne h1]
          simp
      · rw [stripEq_cons_ne h0, stripEq_cons_ne h0]
        have : (l0 :: l1 :: (t ++ [d, c, b, a])) = (l0 :: l1 :: t) ++ [d, c, b, a] := by
          simp
        rw [this, List.reverse_append]
        simp
    | [_], hE, _ => simp at hE
    | [], hE, _ => simp at hE
  · rw [dropB64Padding, dropB64Padding]
    simp only [List.append_nil, List.length_nil, Nat.zero_mod, if_pos rfl,
      List.reverse_nil, List.length_cons]
    rw [if_pos (by simp)]
    have h4 : ([a, b, c, d] : List Nat).reverse = d :: [c, b, a] := by simp
    rw [h4, stripEq_cons_ne hd, ← h4, List.reverse_reverse]
    simp [stripEq]

theorem charsToSextets_nil : charsToSextets [] = some [] := rfl

theorem charsToSextets_cons_some {c : Nat} {cs : List Nat} {s : Nat} {ss : List Nat}
    (h1 : decSextet c = some s) (h2 : charsToSextets cs = some ss) :
    charsToSextets (c :: cs) = some (s :: ss) := by
  rw [charsToSextets, h1, h2]

theorem charsToSextets_append {x y : List Nat} {sx sy : List Nat}
    (hx : charsToSextets x = some sx) (hy : charsToSextets y = some sy) :
    charsToSextets (x ++ y) = some (sx ++ sy) := by
  induction x generalizing sx with
  | nil =>
    rw [charsToSextets] at hx
    injection hx with hx
    subst hx
    simpa using hy
  | cons c cs ih =>
    rw [charsToSextets] at hx
    rcases hdec : decSextet c with - | s
    · rw [hdec] at hx; exact absurd hx (by simp)
    rcases hcs : charsToSextets cs with - | ss
    · rw [hdec, hcs] at hx; exact absurd hx (by simp)
    rw [hdec, hcs] at hx
    injection hx with hx
    subst hx
    rw [List.cons_append]
    exact charsToSextets_cons_some hdec (ih hcs)

/-- Core round-trip: the decode pipeline applied to the exact output of
`b64Encode` recovers the bytes. -/
theorem atobCore_b64Encode : ∀ s : List Nat, (∀ b ∈ s, b < 256) →
    atobCore (b64Encode s) = some s
  | [], _ => by simp [b64Encode, atobCore, dropB64Padding, stripEq, charsToSextets,
      b64DecodeQuads]
  | [b1], h => by
    have h1 : b1 < 256 := h b1 (by simp)
    have t1 := @sextet_table (b1 / 4) (by omega)
    have t2 := @sextet_table (b1 % 4 * 16) (by omega)
    rw [atobCore, b64Encode]
    have hpad : dropB64Padding [encSextet (b1 / 4), encSextet (b1 % 4 * 16), 61, 61]
        = [encSextet (b1 / 4), encSextet (b1 % 4 * 16)] := by
      rw [dropB64Padding, if_pos (by simp)]
      have hr : ([encSextet (b1 / 4), encSextet (b1 % 4 * 16), 61, 61] : List Nat).reverse
          = 61 :: 61 :: [encSextet (b1 % 4 * 16), encSextet (b1 / 4)] := by simp
      rw [hr, stripEq_61_61_cons]
      simp
    rw [hpad,
      charsToSextets_cons_some t1.1 (charsToSextets_cons_some t2.1 charsToSextets_nil)]
    show b64DecodeQuads [b1 / 4, b1 % 4 * 16] = some [b1]
    have e1 : b1 / 4 * 4 + b1 % 4 * 16 / 16 = b1 := by omega
    rw [b64DecodeQuads, e1]
  | [b1, b2], h => by
    have h1 : b1 < 256 := h b1 (by simp)
    have h2 : b2 < 256 := h b2 (by simp)
    have t1 := @sextet_table (b1 / 4) (by omega)
    have t2 := @sextet_table (b1 % 4 * 16 + b2 / 16) (by omega)
    have t3 := @sextet_table (b2 % 16 * 4) (by omega)
    rw [atobCore, b64Encode]
    have hpad : dropB64Padding
        [encSextet (b1 / 4), encSextet (b1 % 4 * 16 + b2 / 16), encSextet (b2 % 16 * 4), 61]
        = [encSextet (b1 / 4), encSextet (b1 % 4 * 16 + b2 / 16), encSextet (b2 % 16 * 4)] := by
      rw [dropB64Padding, if_pos (by simp)]
      have hr : ([encSextet (b1 / 4), encSextet (b1 % 4 * 16 + b2 / 16),
          encSextet (b2 % 16 * 4), 61] : List Nat).reverse
          = 61 :: encSextet (b2 % 16 * 4) ::
            [encSextet (b1 % 4 * 16 + b2 / 16), encSextet (b1 / 4)] := by simp
      rw [hr, stripEq_61_cons_ne t3.2.1]
      simp
    rw [hpad, charsToSextets_cons_some t1.1 (charsToSextets_cons_some t2.1
      (charsToSextets_cons_some t3.1 charsToSextets_nil))]
    show b64DecodeQuads [b1 / 4, b1 % 4 * 16 + b2 / 16, b2 % 16 * 4] = some [b1, b2]
    have e1 : b1 / 4 * 4 + (b1 % 4 * 16 + b2 / 16) / 16 = b1 := by omega
    have e2 : (b1 % 4 * 16 + b2 / 16) % 16 * 16 + b2 % 16 * 4 / 4 = b2 := by omega
    rw [b64DecodeQuads, e1, e2]
  | b1 :: b2 :: b3 :: rest, h => by
    have h1 : b1 < 256 := h b1 (by simp)
    have h2 : b2 < 256 := h b2 (by simp)
    have h3 : b3 < 256 := h b3 (by simp)
    have hrest : ∀ b ∈ rest, b < 256 := fun b hb => h b (by simp [hb])
    have t1 := @sextet_table (b1 / 4) (by omega)
    have t2 := @sextet_table (b1 % 4 * 16 + b2 / 16) (by omega)
    have t3 := @sextet_table (b2 % 16 * 4 + b3 / 64) (by omega)
    have t4 := @sextet_table (b3 % 64) (by omega)
    have ih := atobCore_b64Encode rest hrest
    rcases hct : charsToSextets (dropB64Padding (b64Encode rest)) with - | ss
    · rw [atobCore, hct] at ih; exact absurd ih (by simp)
    have ihq : b64DecodeQuads ss = some rest := by rw [atobCore, hct] at ih; exact ih
    have hEcases : 2 ≤ (b64Encode rest).length ∨ b64Encode rest = [] := by
      rcases rest with - | ⟨x, xs⟩
      · exact Or.inr rfl
      · left
        rcases hE : b64Encode (x :: xs) with - | ⟨y, ys⟩
        · rcases xs with - | ⟨z, zs⟩
          · exact absurd (congrArg List.length hE) (by simp [b64Encode])
          · rcases zs with - | ⟨w, ws⟩
            · exact absurd (congrArg List.length hE) (by simp [b64Encode])
            · exact absurd (congrArg List.length hE) (by simp [b64Encode])
        · have hm := b64Encode_length_mod (x :: xs)
          rw [hE] at hm
          simp only [List.length_cons] at hm ⊢
          omega
    rw [atobCore, b64Encode,
      dropB64Padding_chunk_append _ _ _ _ _ (b64Encode_length_mod rest) t4.2.1 hEcases]
    have hfour : charsToSextets [encSextet (b1 / 4), encSextet (b1 % 4 * 16 + b2 / 16),
        encSextet (b2 % 16 * 4 + b3 / 64), encSextet (b3 % 64)]
        = some [b1 / 4, b1 % 4 * 16 + b2 / 16, b2 % 16 * 4 + b3 / 64, b3 % 64] :=
      charsToSextets_cons_some t1.1 (charsToSextets_cons_some t2.1
        (charsToSextets_cons_some t3.1 (charsToSextets_cons_some t4.1 charsToSextets_nil)))
    rw [charsToSextets_append hfour hct]
    show b64DecodeQuads ((b1 / 4) :: (b1 % 4 * 16 + b2 / 16) ::
      (b2 % 16 * 4 + b3 / 64) :: (b3 % 64) :: ss) = some (b1 :: b2 :: b3 :: rest)
    have e1 : b1 / 4 * 4 + (b1 % 4 * 16 + b2 / 16) / 16 = b1 := by omega
    have e2 : (b1 % 4 * 16 + b2 / 16) % 16 * 16 + (b2 % 16 * 4 + b3 / 64) / 4 = b2 := by
      omega
    have e3 : (b2 % 16 * 4 + b3 / 64) % 4 * 64 + b3 % 64 = b3 := by omega
    rw [b64DecodeQuads, ihq, Option.map_some', e1, e2, e3]

theorem atob_b64Encode {s : List Nat} (h : ∀ b ∈ s, b < 256) :
    atob (b64Encode s) = some s := by
  rw [atob, stripB64Ws_b64Encode h]
  exact atobCore_b64Encode s h

theorem b64Encode_ne_nil {s : List Nat} (h : s ≠ []) : b64Encode s ≠ [] := by
  match s, h with
  | [b1], _ => simp [b64Encode]
  | [b1, b2], _ => simp [b64Encode]
  | b1 :: b2 :: b3 :: rest, _ => simp [b64Encode]

/-- **C9.** The credential obfuscation is reversible: for every credential
string whose code units `btoa` can encode (all below 256, i.e. Latin-1),
`decryptApiKey (encryptApiKey k) = k`.  (`encryptApiKey` is `Option`-valued
because `btoa` throws outside Latin-1; the hypothesis makes it succeed.) -/
theorem decryptApiKey_encryptApiKey (k : List Nat) (h : ∀ c ∈ k, c < 256) :
    ∃ e, encryptApiKey k = some e ∧ decryptApiKey e = k := by
  rcases hk : k.isEmpty with - | -
  · rw [List.isEmpty_eq_false] at hk
    refine ⟨(b64Encode k).map shiftUp, ?_, ?_⟩
    · rw [encryptApiKey, if_neg (by simp [hk]), btoa,
        if_pos (by rw [List.all_eq_true]; intro b hb; simpa using h b hb),
        Option.map_some']
    · have hne : (b64Encode k).map shiftUp ≠ [] := by
        simp [b64Encode_ne_nil hk]
      rw [decryptApiKey, if_neg (by simp [hne])]
      have hdown : ((b64Encode k).map shiftUp).map shiftDown = b64Encode k := by
        rw [List.map_map]
        rw [show (shiftDown ∘ shiftUp) = fun c => shiftDown (shiftUp c) from rfl]
        have : ∀ c ∈ b64Encode k, (fun c => shiftDown (shiftUp c)) c = id c := by
          intro c hc
          have hlt : c < 123 := (b64Encode_chars h c hc).2
          simp only [shiftUp, shiftDown, id]
          omega
        rw [List.map_congr_left this, List.map_id]
      rw [hdown, atob_b64Encode h]
  · rw [List.isEmpty_iff] at hk
    subst hk
    exact ⟨[], by simp [encryptApiKey], by simp [decryptApiKey]⟩

/-- Closed witness for `decryptApiKey_encryptApiKey` on the code units of a
concrete credential string. -/
theorem decryptApiKey_encryptApiKey_witness :
    ∃ e, encryptApiKey [115, 107, 45, 116, 101, 115, 116] = some e ∧
      decryptApiKey e = [115, 107, 45, 116, 101, 115, 116] :=
  decryptApiKey_encryptApiKey [115, 107, 45, 116, 101, 115, 116] (by decide)

/-- **C10.** `decryptApiKey` is total: it is a function returning a string on
every input (the `atob` failure is caught), returning the empty string both
on the empty input and whenever the reverse-substituted form is not valid
base64 (`atob` throws, modelled by `none`); and on well-formed input it
returns the decoded string. -/
theorem decryptApiKey_total (e : List Nat) :
    (e.isEmpty = true → decryptApiKey e = []) ∧
    (atob (e.map shiftDown) = none → decryptApiKey e = []) ∧
    (∀ s, e.isEmpty = false → atob (e.map shiftDown) = some s →
      decryptApiKey e = s) := by
  refine ⟨fun h => by rw [decryptApiKey, if_pos h], fun h => ?_, fun s h1 h2 => ?_⟩
  · rw [decryptApiKey]
    split
    · rfl
    · rw [h]
  · rw [decryptApiKey, if_neg (by simp [h1]), h2]

/-- Closed witness for `decryptApiKey_total`: the single character `'B'`
reverse-substitutes to `'A'`, which is not valid base64 (length 1), so
decryption yields the empty string; and a well-formed input decodes. -/
theorem decryptApiKey_total_witness :
    (atob ([66].map shiftDown) = none → decryptApiKey [66] = []) ∧
    decryptApiKey [66] = [] :=
  ⟨(decryptApiKey_total [66]).2.1,
    (decryptApiKey_total [66]).2.1 (by decide)⟩

/-! ### Round control (NegotiationController) -/

theorem buildFinalResults_isFinal (t : List Char) :
    (buildFinalResults t).isFinal = true := by
  rw [buildFinalResults]
  split <;> rfl

/-- **C7.** With `maxQuestionDepth = 0`, processing a file set makes exactly
one oracle call and terminates in that single round with a final (non-error)
result for every successful oracle response, no follow-up questions are
presented, and no follow-up round can subsequently run (the submit handler
returns without acting). -/
theorem processFiles_maxDepth_zero_single_round (prompt r : List Char) :
    (processFilesStep 0 prompt (Except.ok r)).2 = 1 ∧
    (∃ out, (processFilesStep 0 prompt (Except.ok r)).1.results = some out ∧
      out.isFinal = true) ∧
    (processFilesStep 0 prompt (Except.ok r)).1.followUpQuestions = none ∧
    (∀ resp outcome,
      followUpStep (processFilesStep 0 prompt (Except.ok r)).1 resp outcome
        = (processFilesStep 0 prompt (Except.ok r)).1) :=
  ⟨rfl, ⟨buildFinalResults r, rfl, buildFinalResults_isFinal r⟩, rfl,
    fun _ _ => rfl⟩

/-- **C1** (failing input).  With `maxQuestionDepth = 1`: the first submitted
follow-up round takes `currentQuestionDepth` to `1 = maxQuestionDepth` and
produces final results, but the pending follow-up questions are **not**
cleared (the `finally` block compares the stale pre-increment depth `0`
against `maxQuestionDepth`), so a second round can be submitted, taking
`currentQuestionDepth` to `2 > maxQuestionDepth`; only then are the
questions cleared. -/
theorem followUp_depth_overrun_maxDepth_one :
    ((processFilesStep 1 "p".toList
        (Except.ok "FOLLOW-UP QUESTIONS\n1. What use?\nNEED_MORE_INFO\nYES".toList)).1.followUpQuestions).isSome
      = true ∧
    (followUpStep (processFilesStep 1 "p".toList
        (Except.ok "FOLLOW-UP QUESTIONS\n1. What use?\nNEED_MORE_INFO\nYES".toList)).1
      "**answer**".toList (Except.ok "## Final\nDone.".toList)).currentQuestionDepth = 1 ∧
    ((followUpStep (processFilesStep 1 "p".toList
        (Except.ok "FOLLOW-UP QUESTIONS\n1. What use?\nNEED_MORE_INFO\nYES".toList)).1
      "**answer**".toList (Except.ok "## Final\nDone.".toList)).followUpQuestions).isSome
      = true ∧
    (followUpStep (followUpStep (processFilesStep 1 "p".toList
        (Except.ok "FOLLOW-UP QUESTIONS\n1. What use?\nNEED_MORE_INFO\nYES".toList)).1
      "**answer**".toList (Except.ok "## Final\nDone.".toList))
      "more".toList (Except.ok "## Final again.".toList)).currentQuestionDepth = 2 ∧
    (followUpStep (followUpStep (processFilesStep 1 "p".toList
        (Except.ok "FOLLOW-UP QUESTIONS\n1. What use?\nNEED_MORE_INFO\nYES".toList)).1
      "**answer**".toList (Except.ok "## Final\nDone.".toList))
      "more".toList (Except.ok "## Final again.".toList)).followUpQuestions = none := by
  refine ⟨by decide, by decide, by decide, by decide, by decide⟩

/-- Concrete pre-round state for the follow-up failure analysis: one pending
question set, depth `0` of max `2`. -/
def errorRoundState : AppState :=
  { maxQuestionDepth := 2
    currentQuestionDepth := 0
    followUpQuestions := some "1. What use case?".toList
    conversationMemory := [ConvMessage.mk "system".toList systemSeedMessage]
    results := none
    isProcessed := true }

/-- **C2** (counterexample).  A failing oracle call during a follow-up round
does *not* leave `currentQuestionDepth` and the conversation memory at their
pre-round values: the depth has already been incremented and the user
response appended before the call, and neither is rolled back. -/
theorem followUp_error_mutates_state :
    (followUpStep errorRoundState "my answer".toList
        (Except.error "network error".toList)).currentQuestionDepth = 1 ∧
    errorRoundState.currentQuestionDepth = 0 ∧
    (followUpStep errorRoundState "my answer".toList
        (Except.error "network error".toList)).conversationMemory
      ≠ errorRoundState.conversationMemory := by
  refine ⟨by decide, by decide, by decide⟩

/-- **C2** (amended).  On a failing oracle call during a follow-up round the
round surfaces a terminal error result, and the pending questions are
retained whenever the pre-round depth is below `maxQuestionDepth` — but
`currentQuestionDepth` has been incremented and the user response appended
to the conversation memory before the attempted call, and these mutations
persist (when the pre-round depth has reached `maxQuestionDepth`, the
`finally` block even clears the pending questions despite the error). -/
theorem followUp_error_round (s : AppState) (userResponse err : List Char)
    (h : s.followUpQuestions.isSome = true) :
    (followUpStep s userResponse (Except.error err)).results
      = some (AnalysisOutcome.errorResult
          ("Error processing follow-up response: ".toList ++ err)) ∧
    (followUpStep s userResponse (Except.error err)).currentQuestionDepth
      = s.currentQuestionDepth + 1 ∧
    (followUpStep s userResponse (Except.error err)).conversationMemory
      = s.conversationMemory ++ [ConvMessage.mk "user".toList userResponse] ∧
    (followUpStep s userResponse (Except.error err)).followUpQuestions
      = (if s.maxQuestionDepth ≤ s.currentQuestionDepth then none
         else s.followUpQuestions) := by
  rcases hq : s.followUpQuestions with - | q
  · rw [hq] at h
    simp at h
  · by_cases hd : s.maxQuestionDepth ≤ s.currentQuestionDepth <;>
      simp [followUpStep, hq, hd]

/-- Closed witness for `followUp_error_round` at the concrete pre-round
state. -/
theorem followUp_error_round_witness :
    (followUpStep errorRoundState "my answer".toList
        (Except.error "boom".toList)).currentQuestionDepth
      = errorRoundState.currentQuestionDepth + 1 :=
  (followUp_error_round errorRoundState "my answer".toList "boom".toList
    (by decide)).2.1

/-- **C4** (counterexample).  In `handleProcessFiles` with
`maxQuestionDepth > 0`, an oracle response containing the marker but no
follow-up-questions header falls back to the numbered-line extraction over
the *raw* response, and the string shown to the user retains the marker and
the text after it. -/
theorem initialRound_questions_retain_marker :
    containsSub marker "1. Given NEED_MORE_INFO YES, go?".toList = true ∧
    (processFilesStep 2 "p".toList
        (Except.ok "1. Given NEED_MORE_INFO YES, go?".toList)).1.followUpQuestions
      = some "1. Given NEED_MORE_INFO YES, go?".toList ∧
    containsSub marker
      ((processFilesStep 2 "p".toList
        (Except.ok "1. Given NEED_MORE_INFO YES, go?".toList)).1.followUpQuestions.getD [])
      = true := by
  refine ⟨by decide, by decide, by decide⟩

/-- **C4** (amended).  The stripping property holds for the text all
follow-up-round display paths are based on: when the marker is present,
`cleanedResponseText` is the trimmed prefix strictly before the first marker
occurrence (so the marker and everything after it up to end-of-response is
removed), and the marker does not occur in it. -/
theorem cleanedResponseText_strips_marker (text : List Char) (i : Nat)
    (h : needMoreInfoIndex text = some i) :
    cleanedResponseText text = jsTrim (text.take i) ∧
    ¬ marker <:+: cleanedResponseText text :=
  ⟨by rw [cleanedResponseText, h], marker_not_infix_cleanedResponseText h⟩

/-- Closed witness for `cleanedResponseText_strips_marker`. -/
theorem cleanedResponseText_strips_marker_witness :
    cleanedResponseText "All set. NEED_MORE_INFO\nNO".toList
      = jsTrim ("All set. NEED_MORE_INFO\nNO".toList.take 9) ∧
    ¬ marker <:+: cleanedResponseText "All set. NEED_MORE_INFO\nNO".toList :=
  cleanedResponseText_strips_marker "All set. NEED_MORE_INFO\nNO".toList 9
    (by decide)

/-! ### Metadata-table extraction on a well-formed table (C6) -/

theorem splitPipe_pipe_cons (t : List Char) :
    splitPipe ('|' :: t) = [] :: splitPipe t := by
  simp [splitPipe]

theorem splitPipe_seg_pipe {s : List Char} (h : '|' ∉ s) (t : List Char) :
    splitPipe (s ++ '|' :: t) = s :: splitPipe t := by
  induction s with
  | nil => simpa using splitPipe_pipe_cons t
  | cons c cs ih =>
    have hc : c ≠ '|' := fun hc => h (hc ▸ List.mem_cons_self c cs)
    have ih' := ih (fun hm => h (List.mem_cons_of_mem c hm))
    simp only [List.cons_append, splitPipe, hc, if_false, List.append_eq, ih']

theorem splitPipe_cons_ne_of {c : Char} {t : List Char} {Y : List (List Char)}
    (hc : c ≠ '|') (h : splitPipe t = [] :: Y) :
    splitPipe (c :: t) = [c] :: Y := by
  simp [splitPipe, hc, h]

theorem cellSeg_no_pipe {c : List Char} (h : '|' ∉ c) : '|' ∉ cellSeg c := by
  intro hmem
  rcases List.mem_cons.mp hmem with hm | hm
  · exact absurd hm (by decide)
  · rcases List.mem_append.mp hm with hm2 | hm2
    · exact h hm2
    · exact absurd hm2 (by decide)

theorem splitPipe_mdTable (h1 h2 h3 h4 a1 a2 a3 a4 b1 b2 b3 b4 : List Char)
    (p1 : '|' ∉ h1) (p2 : '|' ∉ h2) (p3 : '|' ∉ h3) (p4 : '|' ∉ h4)
    (q1 : '|' ∉ a1) (q2 : '|' ∉ a2) (q3 : '|' ∉ a3) (q4 : '|' ∉ a4)
    (r1 : '|' ∉ b1) (r2 : '|' ∉ b2) (r3 : '|' ∉ b3) (r4 : '|' ∉ b4) :
    splitPipe (mdTable h1 h2 h3 h4 a1 a2 a3 a4 b1 b2 b3 b4)
      = [[], cellSeg h1, cellSeg h2, cellSeg h3, cellSeg h4, ['\n'],
         sepCell, sepCell, sepCell, sepCell, ['\n'],
         cellSeg a1, cellSeg a2, cellSeg a3, cellSeg a4, ['\n'],
         cellSeg b1, cellSeg b2, cellSeg b3, cellSeg b4, []] := by
  have hsep : '|' ∉ sepCell := by decide
  have hB : splitPipe (rowThen b1 b2 b3 b4 [])
      = [] :: cellSeg b1 :: cellSeg b2 :: cellSeg b3 :: cellSeg b4 :: [[]] := by
    rw [rowThen, splitPipe_pipe_cons, splitPipe_seg_pipe (cellSeg_no_pipe r1),
      splitPipe_seg_pipe (cellSeg_no_pipe r2), splitPipe_seg_pipe (cellSeg_no_pipe r3),
      splitPipe_seg_pipe (cellSeg_no_pipe r4)]
    rfl
  have hB2 := splitPipe_cons_ne_of (c := '\n') (by decide) hB
  have hA : splitPipe (rowThen a1 a2 a3 a4 ('\n' :: rowThen b1 b2 b3 b4 []))
      = [] :: cellSeg a1 :: cellSeg a2 :: cellSeg a3 :: cellSeg a4 :: ['\n']
          :: cellSeg b1 :: cellSeg b2 :: cellSeg b3 :: cellSeg b4 :: [[]] := by
    rw [rowThen, splitPipe_pipe_cons, splitPipe_seg_pipe (cellSeg_no_pipe q1),
      splitPipe_seg_pipe (cellSeg_no_pipe q2), splitPipe_seg_pipe (cellSeg_no_pipe q3),
      splitPipe_seg_pipe (cellSeg_no_pipe q4), hB2]
  have hA2 := splitPipe_cons_ne_of (c := '\n') (by decide) hA
  have hS : splitPipe (sepRowThen
        ('\n' :: rowThen a1 a2 a3 a4 ('\n' :: rowThen b1 b2 b3 b4 [])))
      = [] :: sepCell :: sepCell :: sepCell :: sepCell :: ['\n']
          :: cellSeg a1 :: cellSeg a2 :: cellSeg a3 :: cellSeg a4 :: ['\n']
          :: cellSeg b1 :: cellSeg b2 :: cellSeg b3 :: cellSeg b4 :: [[]] := by
    rw [sepRowThen, splitPipe_pipe_cons, splitPipe_seg_pipe hsep,
      splitPipe_seg_pipe hsep, splitPipe_seg_pipe hsep, splitPipe_seg_pipe hsep, hA2]
  have hS2 := splitPipe_cons_ne_of (c := '\n') (by decide) hS
  rw [mdTable, rowThen, splitPipe_pipe_cons, splitPipe_seg_pipe (cellSeg_no_pipe p1),
    splitPipe_seg_pipe (cellSeg_no_pipe p2), splitPipe_seg_pipe (cellSeg_no_pipe p3),
    splitPipe_seg_pipe (cellSeg_no_pipe p4), hS2]

theorem isInfix_cons_of {p : List Char} (c : Char) {t : List Char} (h : p <:+: t) :
    p <:+: c :: t := by
  obtain ⟨u, v, rfl⟩ := h
  exact ⟨c :: u, v, by simp⟩

theorem isInfix_append_left_of {p t : List Char} (x : List Char) (h : p <:+: t) :
    p <:+: x ++ t := by
  obtain ⟨u, v, rfl⟩ := h
  exact ⟨x ++ u, v, by simp⟩

theorem containsTable_mdTable (h1 h2 h3 h4 a1 a2 a3 a4 b1 b2 b3 b4 : List Char) :
    containsTable (mdTable h1 h2 h3 h4 a1 a2 a3 a4 b1 b2 b3 b4) = true := by
  rw [containsTable]
  refine (Bool.and_eq_true _ _).mpr ⟨(Bool.and_eq_true _ _).mpr ⟨?_, ?_⟩, ?_⟩
  · rw [containsSub_iff, mdTable, rowThen]
    exact ⟨[], _, rfl⟩
  · rw [containsSub_iff, mdTable, rowThen]
    apply isInfix_cons_of
    apply isInfix_append_left_of
    apply isInfix_cons_of
    apply isInfix_append_left_of
    apply isInfix_cons_of
    apply isInfix_append_left_of
    apply isInfix_cons_of
    apply isInfix_append_left_of
    apply isInfix_cons_of
    apply isInfix_cons_of
    rw [sepRowThen]
    apply isInfix_cons_of
    exact ⟨[], _, rfl⟩
  · rw [containsSub_iff, mdTable, rowThen]
    apply isInfix_cons_of
    apply isInfix_append_left_of
    apply isInfix_cons_of
    apply isInfix_append_left_of
    apply isInfix_cons_of
    apply isInfix_append_left_of
    apply isInfix_cons_of
    apply isInfix_append_left_of
    apply isInfix_cons_of
    rw [sepRowThen]
    exact ⟨[], _, rfl⟩

theorem jsTrim_cellSeg (c : List Char) : jsTrim (cellSeg c) = jsTrim c := by
  rw [cellSeg, jsTrim, jsTrim]
  have hdw : (' ' :: (c ++ [' '])).dropWhile isJsWs
      = (c ++ [' ']).dropWhile isJsWs := by
    simp [List.dropWhile, isJsWs]
  rw [hdw, List.dropWhile_append]
  rcases hd : c.dropWhile isJsWs with - | ⟨x, xs⟩
  · simp [isJsWs]
  · simp only [List.isEmpty_cons, Bool.false_eq_true, if_false]
    congr 1
    rw [List.reverse_append]
    simp [isJsWs]

/-- **C6.** Final-result heuristic extraction on a text that is a well-formed
4-column markdown pipe table (one header row, one separator row, two data
rows, pipe-free cells) yields exactly two metadata entries, in row order,
whose fields are the corresponding data cells trimmed of surrounding
whitespace; the header and separator rows are skipped. -/
theorem tableMetadata_mdTable (h1 h2 h3 h4 a1 a2 a3 a4 b1 b2 b3 b4 : List Char)
    (p1 : '|' ∉ h1) (p2 : '|' ∉ h2) (p3 : '|' ∉ h3) (p4 : '|' ∉ h4)
    (q1 : '|' ∉ a1) (q2 : '|' ∉ a2) (q3 : '|' ∉ a3) (q4 : '|' ∉ a4)
    (r1 : '|' ∉ b1) (r2 : '|' ∉ b2) (r3 : '|' ∉ b3) (r4 : '|' ∉ b4) :
    tableMetadata (mdTable h1 h2 h3 h4 a1 a2 a3 a4 b1 b2 b3 b4)
      = [MetadataEntry.mk (jsTrim a1) (jsTrim a2) (jsTrim a3) (jsTrim a4),
         MetadataEntry.mk (jsTrim b1) (jsTrim b2) (jsTrim b3) (jsTrim b4)] := by
  have hce : ∀ c : List Char, (cellSeg c).isEmpty = false := fun c => by
    simp [cellSeg]
  have hsep : sepCell.isEmpty = false := by decide
  have hnl : (['\n'] : List Char).isEmpty = false := by decide
  rw [tableMetadata,
    if_pos (containsTable_mdTable h1 h2 h3 h4 a1 a2 a3 a4 b1 b2 b3 b4),
    tableRowMatches,
    splitPipe_mdTable h1 h2 h3 h4 a1 a2 a3 a4 b1 b2 b3 b4
      p1 p2 p3 p4 q1 q2 q3 q4 r1 r2 r3 r4]
  simp [pipeRuns, pipeRunsGo, hce, hsep, hnl, jsTrim_cellSeg]

/-- Closed witness for `tableMetadata_mdTable` at concrete cell contents. -/
theorem tableMetadata_mdTable_witness :
    tableMetadata (mdTable "Field Name".toList "Type".toList "Description".toList
        "Explanation".toList
        "title".toList "string".toList "Doc title".toList "From header".toList
        "date".toList "date".toList "Creation date".toList "From metadata".toList)
      = [MetadataEntry.mk (jsTrim "title".toList) (jsTrim "string".toList)
          (jsTrim "Doc title".toList) (jsTrim "From header".toList),
         MetadataEntry.mk (jsTrim "date".toList) (jsTrim "date".toList)
          (jsTrim "Creation date".toList) (jsTrim "From metadata".toList)] :=
  tableMetadata_mdTable "Field Name".toList "Type".toList "Description".toList
    "Explanation".toList "title".toList "string".toList "Doc title".toList
    "From header".toList "date".toList "date".toList "Creation date".toList
    "From metadata".toList
    (by decide) (by decide) (by decide) (by decide) (by decide) (by decide)
    (by decide) (by decide) (by decide) (by decide) (by decide) (by decide)

theorem searchSuffix_zero {test : List Char → Bool} {t : List Char}
    (h : test t = true) : searchSuffix test t = some 0 := by
  cases t <;> simp [searchSuffix, h]

theorem matchesCI_append {pat a b : List Char} (h : pat.length ≤ a.length) :
    matchesCI pat (a ++ b) = matchesCI pat a := by
  induction pat generalizing a with
  | nil => simp [matchesCI]
  | cons p ps ih =>
    match a with
    | [] => simp at h
    | c :: cs =>
      simp only [List.cons_append, matchesCI, List.append_eq]
      rw [ih (by simpa using h)]

theorem noUpperParen_head (c : Char) (d : Char) (rest : List Char)
    (h : noUpperParen (c :: d :: rest) = true) :
    (isUpperAscii c && d = ')') = false ∧ noUpperParen (d :: rest) = true := by
  rw [noUpperParen, Bool.and_eq_true, Bool.not_eq_true'] at h
  exact h

theorem noUpperParen_append_left {a b : List Char}
    (ha : noUpperParen a = true) (hb : noUpperParen b = true)
    (hlast : ∀ c, a.getLast? = some c → isUpperAscii c = false) :
    noUpperParen (a ++ b) = true := by
  induction a with
  | nil => simpa using hb
  | cons x a' ih =>
    match a' with
    | [] =>
        match b with
        | [] => simpa using ha
        | y :: b' =>
          simp only [List.cons_append, List.nil_append, noUpperParen,
            Bool.and_eq_true, Bool.not_eq_true']
          refine ⟨?_, by simpa using hb⟩
          rw [hlast x (by simp), Bool.false_and]
    | x' :: a'' =>
      obtain ⟨hp, hrest⟩ := noUpperParen_head x x' a'' ha
      have ih' := ih hrest (fun c hc => hlast c (by
        rw [List.getLast?_cons_cons]
        exact hc))
      simp only [List.cons_append, noUpperParen, Bool.and_eq_true,
        Bool.not_eq_true']
      refine ⟨hp, ?_⟩
      simpa using ih'

theorem noUpperParen_append_right {a b : List Char}
    (ha : noUpperParen a = true) (hb : noUpperParen b = true)
    (hhead : ∀ d, b.head? = some d → d ≠ ')') :
    noUpperParen (a ++ b) = true := by
  induction a with
  | nil => simpa using hb
  | cons x a' ih =>
    match a' with
    | [] =>
        match b with
        | [] => simpa using ha
        | y :: b' =>
          simp only [List.cons_append, List.nil_append, noUpperParen,
            Bool.and_eq_true, Bool.not_eq_true']
          refine ⟨?_, by simpa using hb⟩
          have : y ≠ ')' := hhead y (by simp)
          simp [this]
    | x' :: a'' =>
      obtain ⟨hp, hrest⟩ := noUpperParen_head x x' a'' ha
      have ih' := ih hrest
      simp only [List.cons_append, noUpperParen, Bool.and_eq_true,
        Bool.not_eq_true']
      refine ⟨hp, ?_⟩
      simpa using ih'

theorem categoryScan_end {fuel : Nat} {sec : List Char} {i : Nat}
    (h : sec.length ≤ i) : categoryScan fuel sec i = [] := by
  cases fuel with
  | zero => rfl
  | succ fuel => rw [categoryScan, if_neg (by omega)]

theorem catMatchLen_none_of_pair {c d : Char} {r : List Char}
    (h : (isUpperAscii c && d = ')') = false) :
    catMatchLen (c :: d :: r) = none := by
  simp [catMatchLen, h]

theorem categoryScan_skip : ∀ (q : List Char) (fuel i : Nat) (sec tail : List Char),
    sec.drop i = q ++ tail →
    noUpperParen (q ++ tail.take 1) = true →
    categoryScan (fuel + q.length) sec i = categoryScan fuel sec (i + q.length) := by
  intro q
  induction q with
  | nil => intro fuel i sec tail _ _; simp
  | cons c q' ih =>
    intro fuel i sec tail hdrop hnp
    have hlt : i < sec.length := by
      by_contra hge
      rw [List.drop_eq_nil_of_le (by omega)] at hdrop
      exact absurd hdrop.symm (by simp)
    have hnone : catMatchLen (sec.drop i) = none := by
      rw [hdrop, List.cons_append]
      match q', tail, hnp with
      | [], [], hnp => rfl
      | [], t0 :: ts, hnp =>
        refine catMatchLen_none_of_pair ?_
        exact (noUpperParen_head c t0 [] (by simpa using hnp)).1
      | q0 :: q'', tail, hnp =>
        refine catMatchLen_none_of_pair ?_
        exact (noUpperParen_head c q0 _ (by simpa using hnp)).1
    have hstep : categoryScan (fuel + (c :: q').length) sec i
        = categoryScan (fuel + q'.length) sec (i + 1) := by
      rw [show fuel + (c :: q').length = (fuel + q'.length) + 1 by simp; omega]
      rw [categoryScan, if_pos hlt, hnone]
    rw [hstep]
    have hdrop' : sec.drop (i + 1) = q' ++ tail := by
      have : sec.drop (i + 1) = (sec.drop i).drop 1 := by
        rw [List.drop_drop]
      rw [this, hdrop, List.cons_append]
      rfl
    have hnp' : noUpperParen (q' ++ tail.take 1) = true := by
      match q', tail, hnp with
      | [], [], hnp => rfl
      | [], t0 :: ts, hnp => simpa using (noUpperParen_head c t0 [] (by simpa using hnp)).2
      | q0 :: q'', tail, hnp =>
        exact (noUpperParen_head c q0 _ (by simpa using hnp)).2
    rw [ih fuel (i + 1) sec tail hdrop' hnp']
    congr 1
    simp
    omega

theorem catMatchLen_A (x : List Char) :
    catMatchLen ("A) CORE USE CASE\n1. ".toList ++ x) = some 17 := rfl

theorem catMatchLen_B (x : List Char) :
    catMatchLen ("B) FILTERING\n2. ".toList ++ x) = some 13 := rfl

theorem qSet2Text_length (q1 q2 : List Char) :
    (qSet2Text q1 q2).length = 58 + q1.length + q2.length := by
  simp [qSet2Text, restA, restB]
  omega

theorem qSet2Text_drop20 (q1 q2 : List Char) :
    (qSet2Text q1 q2).drop 20 = restA q1 q2 := by
  rw [qSet2Text, List.drop_left' (by decide)]

theorem qSet2Text_drop37 (q1 q2 : List Char) :
    (qSet2Text q1 q2).drop 37 = ("1. ".toList ++ q1 ++ ['\n']) ++ restB q2 := by
  have h : (qSet2Text q1 q2).drop 37 = ((qSet2Text q1 q2).drop 20).drop 17 := by
    rw [List.drop_drop]
  rw [h, qSet2Text_drop20, restA,
    show "A) CORE USE CASE\n1. ".toList
      = "A) CORE USE CASE\n".toList ++ "1. ".toList from rfl,
    List.append_assoc, List.drop_left' (by decide)]
  simp [List.append_assoc]

theorem qSet2Text_dropB (q1 q2 : List Char) :
    (qSet2Text q1 q2).drop (41 + q1.length) = restB q2 := by
  have h : (qSet2Text q1 q2).drop (41 + q1.length)
      = ((qSet2Text q1 q2).drop 37).drop (4 + q1.length) := by
    rw [List.drop_drop]
    congr 1
    omega
  rw [h, qSet2Text_drop37, List.drop_left' (by simp; omega)]

theorem qSet2Text_drop54 (q1 q2 : List Char) :
    (qSet2Text q1 q2).drop (54 + q1.length) = "2. ".toList ++ (q2 ++ ['\n']) := by
  have h : (qSet2Text q1 q2).drop (54 + q1.length)
      = ((qSet2Text q1 q2).drop (41 + q1.length)).drop 13 := by
    rw [List.drop_drop]
    congr 1
    omega
  rw [h, qSet2Text_dropB, restB,
    show "B) FILTERING\n2. ".toList
      = "B) FILTERING\n".toList ++ "2. ".toList from rfl,
    List.append_assoc, List.drop_left' (by decide)]

theorem categoryScan_step_some {sec : List Char} {i len : Nat} (fuel : Nat)
    (hi : i < sec.length) (h : catMatchLen (sec.drop i) = some len) :
    categoryScan (fuel + 1) sec i = (i, len) :: categoryScan fuel sec (i + len) := by
  rw [categoryScan, if_pos hi, h]

theorem noUpperParen_block {q : List Char} (lead : List Char) (last : Char)
    (hq : noUpperParen q = true) (hlead : noUpperParen lead = true)
    (hleadLast : ∀ c, lead.getLast? = some c → isUpperAscii c = false)
    (hlast : noUpperParen [last] = true) (hne : last ≠ ')') :
    noUpperParen (lead ++ q ++ [last]) = true := by
  rw [List.append_assoc]
  refine noUpperParen_append_left hlead ?_ hleadLast
  refine noUpperParen_append_right hq hlast ?_
  intro d hd
  simp at hd
  subst hd
  exact hne

theorem categoryMatches_qSet2Text (q1 q2 : List Char)
    (h1up : noUpperParen q1 = true) (h2up : noUpperParen q2 = true) :
    categoryMatches (qSet2Text q1 q2) = [(20, 17), (41 + q1.length, 13)] := by
  have hlen := qSet2Text_length q1 q2
  rw [categoryMatches, hlen]
  -- skip the header region [0, 20)
  have hskip1 := categoryScan_skip "FOLLOW-UP QUESTIONS\n".toList
    (39 + q1.length + q2.length) 0 (qSet2Text q1 q2) (restA q1 q2)
    (by rw [List.drop_zero, qSet2Text])
    (by rw [show (restA q1 q2).take 1 = ['A'] from rfl]; decide)
  rw [show 58 + q1.length + q2.length + 1
      = 39 + q1.length + q2.length + ("FOLLOW-UP QUESTIONS\n".toList).length by
    simp; omega]
  rw [hskip1, show (0 + ("FOLLOW-UP QUESTIONS\n".toList).length) = 20 by simp]
  -- match at 20
  rw [show 39 + q1.length + q2.length = (38 + q1.length + q2.length) + 1 by omega]
  rw [categoryScan_step_some (38 + q1.length + q2.length) (by rw [hlen]; omega)
    (by rw [qSet2Text_drop20]; exact catMatchLen_A _)]
  have h37 : 20 + 17 = 37 := rfl
  rw [h37]
  -- skip "1. " ++ q1 ++ "\n"
  have hq1block : noUpperParen (("1. ".toList ++ q1 ++ ['\n']) ++
      (restB q2).take 1) = true := by
    rw [show (restB q2).take 1 = ['B'] from rfl,
      show ("1. ".toList ++ q1 ++ ['\n']) ++ ['B']
        = "1. ".toList ++ (q1 ++ ['\n']) ++ ['B'] by simp]
    refine noUpperParen_block ("1. ".toList) 'B' ?_ (by decide) ?_ (by decide)
      (by decide)
    · refine noUpperParen_append_right h1up (by decide) ?_
      intro d hd
      simp at hd
      subst hd
      decide
    · intro c hc
      simp at hc
      subst hc
      decide
  have hskip2 := categoryScan_skip ("1. ".toList ++ q1 ++ ['\n'])
    (34 + q2.length) 37 (qSet2Text q1 q2) (restB q2)
    (qSet2Text_drop37 q1 q2) hq1block
  rw [show 38 + q1.length + q2.length
      = 34 + q2.length + ("1. ".toList ++ q1 ++ ['\n']).length by simp; omega]
  rw [hskip2]
  rw [show 37 + ("1. ".toList ++ q1 ++ ['\n']).length = 41 + q1.length by
    simp; omega]
  -- match at 41 + q1.length
  rw [show 34 + q2.length = (33 + q2.length) + 1 by omega]
  rw [categoryScan_step_some (33 + q2.length) (by rw [hlen]; omega)
    (by rw [qSet2Text_dropB]; exact catMatchLen_B _)]
  rw [show 41 + q1.length + 13 = 54 + q1.length by omega]
  -- skip "2. " ++ q2 ++ "\n" with empty tail
  have hq2block : noUpperParen (("2. ".toList ++ q2 ++ ['\n']) ++
      ([] : List Char).take 1) = true := by
    rw [List.take_nil, List.append_nil,
      show ("2. ".toList ++ q2 ++ ['\n'])
        = "2. ".toList ++ (q2 ++ ['\n']) by simp]
    refine noUpperParen_append_left (by decide) ?_ ?_
    · refine noUpperParen_append_right h2up (by decide) ?_
      intro d hd
      simp at hd
      subst hd
      decide
    · intro c hc
      simp at hc
      subst hc
      decide
  have hskip3 := categoryScan_skip ("2. ".toList ++ q2 ++ ['\n'])
    29 (54 + q1.length) (qSet2Text q1 q2) []
    (by rw [qSet2Text_drop54]; simp) hq2block
  rw [show 33 + q2.length = 29 + ("2. ".toList ++ q2 ++ ['\n']).length by
    simp; omega]
  rw [hskip3]
  rw [categoryScan_end (by rw [hlen]; simp; omega)]

theorem numCapScan_nil (fuel : Nat) : numCapScan fuel [] = [] := by
  cases fuel <;> rfl

theorem numCapScan_newline (fuel : Nat) : numCapScan fuel ['\n'] = [] := by
  cases fuel with
  | zero => rfl
  | succ n => exact numCapScan_nil n

theorem wsPlusCapture_single_ws (x : Char) (r q' : List Char)
    (hx : isJsWs x = false)
    (hcap : (x :: r).takeWhile (fun c => c ≠ '\n') = x :: q') :
    wsPlusCapture (' ' :: x :: r)
      = some ([' '], x :: q', (x :: r).drop (q'.length + 1)) := by
  unfold wsPlusCapture
  rw [List.takeWhile_cons_of_pos (show isJsWs ' ' = true from rfl),
    List.takeWhile_cons_of_neg (by simp [hx])]
  simp only [List.length_cons, List.length_nil, List.drop_succ_cons,
    List.drop_zero, List.isEmpty_cons, hcap]
  rfl

theorem numCapScan_line (fuel : Nat) (c x : Char) (q' : List Char)
    (hc : c.isDigit = true) (hx : isJsWs x = false)
    (hcap : (x :: (q' ++ ['\n'])).takeWhile (fun ch => ch ≠ '\n') = x :: q') :
    numCapScan (fuel + 1) (c :: '.' :: ' ' :: (x :: (q' ++ ['\n'])))
      = ([c], x :: q') :: numCapScan fuel ['\n'] := by
  have hws := wsPlusCapture_single_ws x (q' ++ ['\n']) q' hx hcap
  have hdrop : (x :: (q' ++ ['\n'])).drop (q'.length + 1) = ['\n'] := by
    rw [List.drop_succ_cons, List.drop_left]
  rw [hdrop] at hws
  simp only [numCapScan, List.takeWhile_cons_of_pos hc,
    List.takeWhile_cons_of_neg (show ¬Char.isDigit '.' = true by decide),
    List.isEmpty_cons, List.length_cons, List.length_nil,
    List.drop_succ_cons, List.drop_zero, hws]
  rfl

theorem takeWhile_neq_nl (q : List Char) (h : '\n' ∉ q) :
    List.takeWhile (fun c => c ≠ '\n') (q ++ ['\n']) = q := by
  induction q with
  | nil => rfl
  | cons a as ih =>
      have ha : ¬a = '\n' := fun h' => h (by simp [h'])
      rw [List.cons_append, List.takeWhile_cons_of_pos (by simpa using ha),
        ih (fun hm => h (List.mem_cons_of_mem a hm))]

theorem followUpIdx303_qSet2Text (q1 q2 : List Char) :
    followUpIdx303 (qSet2Text q1 q2) = some 0 := by
  rw [followUpIdx303, qSet2Text]
  refine searchSuffix_zero ?_
  rw [show ("FOLLOW-UP QUESTIONS\n".toList : List Char)
      = "FOLLOW-UP QUESTIONS".toList ++ ['\n'] from rfl, List.append_assoc,
    matchesCI_append (by decide)]
  decide

theorem catBlocks_qSet2Text (q1 q2 : List Char) :
    catBlocks (qSet2Text q1 q2) [(20, 17), (41 + q1.length, 13)]
      = [("A) CORE USE CASE\n".toList, "1. ".toList ++ q1 ++ ['\n']),
         ("B) FILTERING\n".toList, "2. ".toList ++ (q2 ++ ['\n']))] := by
  have h1 : ((qSet2Text q1 q2).drop 20).take 17
      = "A) CORE USE CASE\n".toList := by
    rw [qSet2Text_drop20, restA, List.take_append_of_le_length (by decide)]
    decide
  have h2 : ((qSet2Text q1 q2).drop 37).take (41 + q1.length - 37)
      = "1. ".toList ++ q1 ++ ['\n'] := by
    rw [qSet2Text_drop37, show 41 + q1.length - 37 = 4 + q1.length by omega,
      List.take_left' (by simp; omega)]
  have h3 : ((qSet2Text q1 q2).drop (41 + q1.length)).take 13
      = "B) FILTERING\n".toList := by
    rw [qSet2Text_dropB, restB, List.take_append_of_le_length (by decide)]
    decide
  have h4 : ((qSet2Text q1 q2).drop (54 + q1.length)).take
        ((qSet2Text q1 q2).length - (41 + q1.length + 13))
      = "2. ".toList ++ (q2 ++ ['\n']) := by
    rw [qSet2Text_drop54, qSet2Text_length,
      show 58 + q1.length + q2.length - (41 + q1.length + 13)
        = 4 + q2.length by omega]
    exact List.take_of_length_le (by simp; omega)
  simp only [catBlocks]
  norm_num
  rw [show 54 + q1.length = 41 + q1.length + 13 by omega] at h4
  exact ⟨⟨h1, h2⟩, h3, h4⟩

theorem numCapMatches_q1 (c x : Char) (q' : List Char)
    (hc : c.isDigit = true) (hx : isJsWs x = false) (hnl : '\n' ∉ x :: q') :
    numCapMatches (c :: '.' :: ' ' :: ((x :: q') ++ ['\n'])) = [([c], x :: q')] := by
  have hcap : (x :: (q' ++ ['\n'])).takeWhile (fun ch => ch ≠ '\n') = x :: q' :=
    takeWhile_neq_nl (x :: q') hnl
  rw [numCapMatches,
    show (c :: '.' :: ' ' :: ((x :: q') ++ ['\n'])).length + 1
      = (q'.length + 5) + 1 by
        simp only [List.length_cons, List.length_append, List.length_nil]]
  rw [show ((x :: q') ++ ['\n'] : List Char) = x :: (q' ++ ['\n']) from rfl]
  rw [numCapScan_line (q'.length + 5) c x q' hc hx hcap, numCapScan_newline]

/-- C5 (counterexample): the component pushes one ParsedQuestionSet entry per
numbered question, not per category.  With two numbered questions under
`A) CORE USE CASE` and one under `B) FILTERING` it yields three entries, two
of them labeled with the first category, each carrying a single question --
not the two entries (one per category) the claim describes. -/
theorem parseFollowUpQuestions_entry_per_question :
    parseFollowUpQuestions
        ("FOLLOW-UP QUESTIONS\nA) CORE USE CASE\n1. First question?\n2. Second question?\nB) FILTERING\n3. Third question?\n".toList)
      = [QuestionEntry.mk "A) CORE USE CASE".toList ["First question?".toList],
         QuestionEntry.mk "A) CORE USE CASE".toList ["Second question?".toList],
         QuestionEntry.mk "B) FILTERING".toList ["Third question?".toList]] := by
  decide

/-- C5 (amended): on a follow-up section with category headers
`A) CORE USE CASE` and `B) FILTERING`, each followed by exactly one
single-line numbered question (no leading whitespace, no newline, and no
uppercase-letter-plus-parenthesis pair that would read as another category
header), extraction yields exactly two entries in header order, one per
category, each labeled with its trimmed header text and carrying that
category's question, trimmed. -/
theorem parseFollowUpQuestions_two_categories (x1 x2 : Char) (q1' q2' : List Char)
    (hx1 : isJsWs x1 = false) (hx2 : isJsWs x2 = false)
    (h1up : noUpperParen (x1 :: q1') = true)
    (h2up : noUpperParen (x2 :: q2') = true)
    (h1nl : '\n' ∉ x1 :: q1') (h2nl : '\n' ∉ x2 :: q2') :
    parseFollowUpQuestions (qSet2Text (x1 :: q1') (x2 :: q2'))
      = [QuestionEntry.mk "A) CORE USE CASE".toList [jsTrim (x1 :: q1')],
         QuestionEntry.mk "B) FILTERING".toList [jsTrim (x2 :: q2')]] := by
  simp only [parseFollowUpQuestions, followUpIdx303_qSet2Text, List.drop_zero]
  rw [categoryMatches_qSet2Text _ _ h1up h2up, catBlocks_qSet2Text]
  simp only [List.flatMap_cons, List.flatMap_nil, List.append_nil]
  rw [show ("1. ".toList ++ (x1 :: q1') ++ ['\n'] : List Char)
      = '1' :: '.' :: ' ' :: ((x1 :: q1') ++ ['\n']) by simp,
    show ("2. ".toList ++ ((x2 :: q2') ++ ['\n']) : List Char)
      = '2' :: '.' :: ' ' :: ((x2 :: q2') ++ ['\n']) by simp]
  rw [numCapMatches_q1 '1' x1 q1' (by decide) hx1 h1nl,
    numCapMatches_q1 '2' x2 q2' (by decide) hx2 h2nl]
  simp only [List.map_cons, List.map_nil, List.isEmpty_cons]
  rw [show jsTrim ("A) CORE USE CASE\n".toList) = "A) CORE USE CASE".toList by
      decide,
    show jsTrim ("B) FILTERING\n".toList) = "B) FILTERING".toList by decide]
  simp

theorem parseFollowUpQuestions_two_categories_witness :
    parseFollowUpQuestions
        (qSet2Text "What is the main use case?".toList "Which filters matter?".toList)
      = [QuestionEntry.mk "A) CORE USE CASE".toList
           [jsTrim "What is the main use case?".toList],
         QuestionEntry.mk "B) FILTERING".toList
           [jsTrim "Which filters matter?".toList]] :=
  parseFollowUpQuestions_two_categories 'W' 'W'
    "hat is the main use case?".toList "hich filters matter?".toList
    (by decide) (by decide) (by decide) (by decide) (by decide) (by decide)

end Aidit
